import Mathlib

/-!
Verification development for the mgq document-predicate engine
(`src/mgq.js`): a MongoDB find-filter dialect compiled to a per-document
predicate.  The JavaScript source is shallowly embedded below.

Modelling conventions (documented once here):
* JavaScript values are modelled by the inductive `Value`:
  `null`, booleans, numbers, strings, regular-expression literals,
  arrays, and plain objects (insertion-ordered association lists with,
  as in JavaScript, unique keys).  `undefined` does not occur inside
  JSON-like documents and is not modelled; the engine treats `null` and
  `undefined` alike (`isNil`).
* Numbers are modelled as integers (`Int`).  The engine only adds,
  compares, floors and truncates numbers, and every claim under
  consideration uses integer inputs; double-precision artefacts
  (rounding, `NaN` literals, exponent-notation printing) are outside the
  model.
* Reference equality (`===` between two objects) is modelled as `false`:
  during matching the two compared values always come from the query and
  the document respectively, which are separate structures.
* Host regular-expression matching (the built-in `RegExp` engine) is not
  part of the repository; it is abstracted as a `RegexEngine` parameter
  (pattern validity plus a test function).  No claim depends on the
  behaviour of pattern matching itself.
* Exceptions thrown during evaluation are modelled with `Except JsErr`.
-/

inductive Value where
  | null : Value
  | bool (b : Bool) : Value
  | num (n : Int) : Value
  | str (s : String) : Value
  | regex (pattern flags : String) : Value
  | arr (elems : List Value) : Value
  | obj (fields : List (String × Value)) : Value
deriving Repr

/-- Exceptions the engine can raise: `TypeError` (from `validate` and from
calling a missing method) and `SyntaxError` (from `new RegExp`). -/
inductive JsErr where
  | typeError (msg : String) : JsErr
  | syntaxError (msg : String) : JsErr
deriving Repr, DecidableEq

/-- The host regular-expression engine (JavaScript `RegExp`), abstracted:
`valid p` says whether `new RegExp(p, flags)` succeeds, `test p flags s`
is `re.test(s)`.  The repository delegates both to the host. -/
structure RegexEngine where
  valid : String → Bool
  test : String → String → String → Bool

/-- A degenerate engine used to instantiate closed statements: every
pattern compiles, nothing matches. -/
def nullEngine : RegexEngine := ⟨fun _ => true, fun _ _ _ => false⟩

/-! ### Size measure used for termination -/

mutual
def sizeV : Value → Nat
  | .null | .bool _ | .num _ | .str _ | .regex _ _ => 1
  | .arr xs => 1 + sizeLV xs
  | .obj fs => 1 + sizeFV fs
def sizeLV : List Value → Nat
  | [] => 0
  | x :: xs => 4 + sizeV x + sizeLV xs
def sizeFV : List (String × Value) → Nat
  | [] => 0
  | kv :: fs => 4 + sizeV kv.2 + sizeFV fs
end

theorem sizeV_pos (v : Value) : 1 ≤ sizeV v := by
  cases v <;> simp [sizeV]

theorem sizeLV_mem {x : Value} {xs : List Value} (h : x ∈ xs) :
    sizeV x < sizeLV xs := by
  induction xs with
  | nil => cases h
  | cons y ys ih =>
    rcases List.mem_cons.mp h with rfl | h2
    · simp [sizeLV]; omega
    · have := ih h2; simp [sizeLV]; omega

/-! ### Operator tables (`condOps`, `queryOps` in the source) -/

def condOpsList : List String :=
  ["$eq", "$gt", "$gte", "$in", "$lt", "$lte", "$ne", "$nin", "$not",
   "$regex", "$options", "$mod", "$all", "$elemMatch", "$size"]

def isCondOp (k : String) : Bool := decide (k ∈ condOpsList)

def queryOpsList : List String := ["$and", "$or", "$nor"]

def isQueryOp (k : String) : Bool := decide (k ∈ queryOpsList)

/-! ### Object field access -/

/-- `key in obj` for own fields of a plain object. -/
def hasKey (fs : List (String × Value)) (key : String) : Bool :=
  fs.any (fun kv => decide (kv.1 = key))

/-- `obj[key]`; only consulted under a `hasKey` guard, the default is
irrelevant (JavaScript would give `undefined`). -/
def lookupD : List (String × Value) → String → Value
  | [], _ => .null
  | kv :: fs, key => if kv.1 = key then kv.2 else lookupD fs key

/-- The fields of a value known to be an object (`Object.keys` order). -/
def fieldsOf : Value → List (String × Value)
  | .obj fs => fs
  | _ => []

theorem sizeFV_lookupD {fs : List (String × Value)} {key : String}
    (h : hasKey fs key = true) : sizeV (lookupD fs key) + 4 ≤ sizeFV fs := by
  induction fs with
  | nil => simp [hasKey] at h
  | cons kv rest ih =>
    by_cases hk : kv.1 = key
    · simp [lookupD, hk, sizeFV]; omega
    · have h2 : hasKey rest key = true := by
        simp [hasKey, hk] at h ⊢; exact h
      have := ih h2
      simp [lookupD, hk, sizeFV]; omega

theorem sizeFV_fieldsOf (v : Value) : sizeFV (fieldsOf v) < sizeV v := by
  cases v <;> simp [fieldsOf, sizeV, sizeFV]

/-! ### Small JavaScript semantic helpers -/

/-- `isPlainObject` from the source: an object that is not `null`, not an
array, not a regex (`Date` has no counterpart in the model). -/
def isPlainObjV : Value → Bool
  | .obj _ => true
  | _ => false

/-- `Array.isArray`. -/
def isArrV : Value → Bool
  | .arr _ => true
  | _ => false

/-- The elements of a value known to be an array. -/
def arrElemsOf : Value → List Value
  | .arr xs => xs
  | _ => []

/-- `isNil`: `null` or `undefined` (the latter unmodelled). -/
def isNilV : Value → Bool
  | .null => true
  | _ => false

/-- JavaScript truthiness test (falsy values: `null`, `false`, `0`, the
empty string; `undefined`/`NaN` unmodelled). -/
def jsFalsy : Value → Bool
  | .null => true
  | .bool b => !b
  | .num n => decide (n = 0)
  | .str s => decide (s = "")
  | _ => false

/-- JavaScript strict equality `===` (also SameValueZero for the values in
the model): primitives by value; two objects/arrays/regexes are compared
by reference, modelled as `false` (see the header note). -/
def jsStrictEq : Value → Value → Bool
  | .null, .null => true
  | .bool a, .bool b => a = b
  | .num a, .num b => a = b
  | .str a, .str b => a = b
  | _, _ => false

/-- `/^\d+$/.test(key)`. -/
def isDigits (key : String) : Bool :=
  !key.data.isEmpty && key.data.all Char.isDigit

/-- `Number.parseInt(key)` for an all-digit string. -/
def digitsToNat (key : String) : Nat :=
  key.data.foldl (fun acc c => acc * 10 + (c.toNat - 48)) 0

/-- Whether `key` is a canonical array-index property of an array of the
given length (`"0"` yes, `"00"` no).  Used to model `key in array`. -/
def isCanonicalIdx (key : String) (len : Nat) : Bool :=
  isDigits key && decide (key = toString (digitsToNat key)) &&
    decide (digitsToNat key < len)

/-- `typeof doc === "object" && doc !== null && key in doc`.  For arrays,
`in` sees canonical index properties (builtin prototype properties such
as `length` are outside the model, as are regex-object properties). -/
def jsHasProp : Value → String → Bool
  | .obj fs, key => hasKey fs key
  | .arr xs, key => isCanonicalIdx key xs.length
  | _, _ => false

/-- `doc[key]`, consulted under a `jsHasProp` guard. -/
def jsGetProp : Value → String → Value
  | .obj fs, key => lookupD fs key
  | .arr xs, key => xs.getD (digitsToNat key) .null
  | _, _ => .null

theorem sizeLV_getD {xs : List Value} {i : Nat} (h : i < xs.length) :
    sizeV (xs.getD i .null) < sizeLV xs := by
  have hmem : xs.getD i .null ∈ xs := by
    rw [List.getD_eq_getElem?_getD, List.getElem?_eq_getElem h]
    exact List.getElem_mem h
  exact sizeLV_mem hmem

theorem sizeLV_arrElemsOf (v : Value) : sizeLV (arrElemsOf v) < sizeV v := by
  cases v <;> simp [arrElemsOf, sizeV, sizeLV]

theorem sizeV_arrGetD {doc : Value} {i : Nat}
    (h : i < (arrElemsOf doc).length) :
    sizeV ((arrElemsOf doc).getD i .null) < sizeV doc := by
  have h1 := sizeLV_getD h
  have h2 := sizeLV_arrElemsOf doc
  omega

theorem sizeV_getProp {doc : Value} {key : String}
    (h : jsHasProp doc key = true) : sizeV (jsGetProp doc key) < sizeV doc := by
  cases doc with
  | obj fs =>
    have := @sizeFV_lookupD fs key (by simpa [jsHasProp] using h)
    simp [jsGetProp, sizeV]; omega
  | arr xs =>
    have hlt : digitsToNat key < xs.length := by
      have := h
      simp [jsHasProp, isCanonicalIdx] at this
      exact this.2
    have hd := sizeLV_getD hlt
    show sizeV (xs.getD (digitsToNat key) .null) < sizeV (.arr xs)
    simp only [sizeV]; omega
  | null => simp [jsHasProp] at h
  | bool b => simp [jsHasProp] at h
  | num n => simp [jsHasProp] at h
  | str s => simp [jsHasProp] at h
  | regex p f => simp [jsHasProp] at h

/-! ### Dotted-path splitting and joining

`path.split(".")` and `parts.join(".")` are modelled on the character
lists underlying `String`, so that the round trip is provable. -/

def splitChars (sep : Char) : List Char → List (List Char)
  | [] => [[]]
  | c :: cs =>
    match splitChars sep cs with
    | [] => [[]]
    | g :: gs => if c = sep then [] :: g :: gs else (c :: g) :: gs

def joinChars (sep : Char) : List (List Char) → List Char
  | [] => []
  | [g] => g
  | g :: gs => g ++ sep :: joinChars sep gs

theorem splitChars_ne_nil (sep : Char) (l : List Char) :
    splitChars sep l ≠ [] := by
  cases l with
  | nil => simp [splitChars]
  | cons c cs =>
    simp only [splitChars]
    cases splitChars sep cs with
    | nil => simp
    | cons g gs =>
      by_cases h : c = sep <;> simp [h]

theorem joinChars_splitChars (sep : Char) (l : List Char) :
    joinChars sep (splitChars sep l) = l := by
  induction l with
  | nil => simp [splitChars, joinChars]
  | cons c cs ih =>
    rcases hs : splitChars sep cs with _ | ⟨g, gs⟩
    · exact absurd hs (splitChars_ne_nil sep cs)
    · rw [hs] at ih
      simp only [splitChars, hs]
      by_cases h : c = sep
      · subst h
        rw [if_pos rfl]
        cases gs <;> simp_all [joinChars]
      · rw [if_neg h]
        cases gs <;> simp_all [joinChars]

/-- `path.split(".")`. -/
def splitDot (s : String) : List String :=
  (splitChars '.' s.data).map fun l => String.mk l

/-- `parts.join(".")`. -/
def joinDot (parts : List String) : String :=
  String.mk (joinChars '.' (parts.map String.data))

theorem map_data_mk (L : List (List Char)) :
    (L.map fun l => String.mk l).map String.data = L := by
  induction L with
  | nil => rfl
  | cons x xs ih => simp only [List.map_cons, ih]

theorem joinDot_splitDot (s : String) : joinDot (splitDot s) = s := by
  cases s with
  | mk data =>
    show String.mk
        (joinChars '.'
          (((splitChars '.' data).map fun l => String.mk l).map String.data)) =
      String.mk data
    rw [map_data_mk, joinChars_splitChars]

/-! ### JavaScript string conversion and relational comparison

Used by the `>` / `<` element comparisons inside the array and object
comparison loops of `matchGt` and friends.  `ToString` of a number is its
decimal representation (exact for the integer model); `ToNumber` of a
string is modelled for optionally signed decimal-integer strings, all
other strings (decimal points, exponents, hex) give `NaN` — none of the
claims exercises those forms. -/

mutual
def jsToStringV : Value → String
  | .null => "null"
  | .bool b => if b then "true" else "false"
  | .num n => toString n
  | .str s => s
  | .regex p f => "/" ++ p ++ "/" ++ f
  | .arr xs => jsJoinL xs
  | .obj _ => "[object Object]"
def jsJoinL : List Value → String
  | [] => ""
  | [x] => jsElemString x
  | x :: xs => jsElemString x ++ "," ++ jsJoinL xs
def jsElemString : Value → String
  | .null => ""
  | v => jsToStringV v
end

/-- Primitive values, the result of `ToPrimitive`. -/
inductive JsPrim where
  | pnull : JsPrim
  | pbool (b : Bool) : JsPrim
  | pnum (n : Int) : JsPrim
  | pstr (s : String) : JsPrim

/-- `ToPrimitive` with number hint: objects, arrays and regexes go
through `toString` (their `valueOf` returns themselves). -/
def toPrim : Value → JsPrim
  | .null => .pnull
  | .bool b => .pbool b
  | .num n => .pnum n
  | .str s => .pstr s
  | v => .pstr (jsToStringV v)

/-- `ToNumber` of a string: `none` is `NaN`. -/
def jsStrToNum (s : String) : Option Int :=
  let l := s.data.dropWhile (fun c => c = ' ' || c = '\t' || c = '\n')
  let l := (l.reverse.dropWhile (fun c => c = ' ' || c = '\t' || c = '\n')).reverse
  match l with
  | [] => some 0
  | '-' :: ds => if !ds.isEmpty && ds.all Char.isDigit
      then some (-(ds.foldl (fun acc c => acc * 10 + ((c.toNat : Int) - 48)) 0))
      else none
  | '+' :: ds => if !ds.isEmpty && ds.all Char.isDigit
      then some (ds.foldl (fun acc c => acc * 10 + ((c.toNat : Int) - 48)) 0)
      else none
  | ds => if ds.all Char.isDigit
      then some (ds.foldl (fun acc c => acc * 10 + ((c.toNat : Int) - 48)) 0)
      else none

/-- `ToNumber` of a primitive: `none` is `NaN`. -/
def primToNum : JsPrim → Option Int
  | .pnull => some 0
  | .pbool b => some (if b then 1 else 0)
  | .pnum n => some n
  | .pstr s => jsStrToNum s

/-- Code-unit lexicographic `<` on strings (JavaScript string order; for
the basic-plane strings in play, code units coincide with scalar
values). -/
def charListLt : List Char → List Char → Bool
  | [], [] => false
  | [], _ :: _ => true
  | _ :: _, [] => false
  | a :: as, b :: bs =>
    if a.toNat < b.toNat then true
    else if b.toNat < a.toNat then false
    else charListLt as bs

def strLtCU (a b : String) : Bool := charListLt a.data b.data

/-- The abstract relational comparison `a < b` of JavaScript (`NaN`
compares false). -/
def jsRelLt (a b : Value) : Bool :=
  match toPrim a, toPrim b with
  | .pstr s, .pstr t => strLtCU s t
  | pa, pb =>
    match primToNum pa, primToNum pb with
    | some x, some y => decide (x < y)
    | _, _ => false

/-- JavaScript `a > b`, which evaluates the relational comparison with
the operands swapped. -/
def jsRelGt (a b : Value) : Bool := jsRelLt b a

/-! ### Deep equality (the `fast-deep-equal` dependency)

Structural equality: arrays by length and element-wise order, objects by
key-set (order-insensitive) and values, regexes by pattern and flags,
primitives by strict equality. -/

mutual
def deepEqualV : Value → Value → Bool
  | .null, .null => true
  | .bool a, .bool b => a = b
  | .num a, .num b => a = b
  | .str a, .str b => a = b
  | .regex p f, .regex q g => p = q && f = g
  | .arr xs, .arr ys => xs.length = ys.length && deepEqualLV xs ys
  | .obj fs, .obj gs => fs.length = gs.length && deepEqualFV fs gs
  | _, _ => false
def deepEqualLV : List Value → List Value → Bool
  | [], _ => true
  | _, [] => true
  | x :: xs, y :: ys => deepEqualV x y && deepEqualLV xs ys
def deepEqualFV : List (String × Value) → List (String × Value) → Bool
  | [], _ => true
  | kv :: fs, gs =>
    hasKey gs kv.1 && deepEqualV kv.2 (lookupD gs kv.1) && deepEqualFV fs gs
end

/-! ### Operand validators (shared by `validate` and the matchers) -/

/-- `validateQueryOps`: the argument must be an array. -/
def validateQueryOpsV : Value → Bool
  | .arr _ => true
  | _ => false

/-- `validateInNin`: the argument must be an array. -/
def validateInNinV : Value → Bool
  | .arr _ => true
  | _ => false

/-- `validateAllElemMatch`: every element is an object (arrays and
regexes have no own `$elemMatch` property) with an `$elemMatch` key. -/
def validateAllElemMatchV (os : List Value) : Bool :=
  os.all fun o =>
    match o with
    | .obj fs => hasKey fs "$elemMatch"
    | _ => false

/-- `validateAll`: an array; if nonempty and every element is a plain
object with some `$`-prefixed key, every element must carry
`$elemMatch`. -/
def validateAllV : Value → Bool
  | .arr os =>
    if os.isEmpty then true
    else if os.all (fun o =>
        isPlainObjV o && (fieldsOf o).any fun kv => kv.1.startsWith "$") then
      validateAllElemMatchV os
    else true
  | _ => false

/-- `validateMod`: a 2-element array of numbers. -/
def validateModV : Value → Bool
  | .arr [.num _, .num _] => true
  | _ => false

/-- `validateSize`: a number. -/
def validateSizeV : Value → Bool
  | .num _ => true
  | _ => false

/-- `checkAllExp`: a truthy plain object, not deep-equal to the empty
object, whose every key is a known condition operator. -/
def checkAllExp (v : Value) : Bool :=
  !jsFalsy v && isPlainObjV v && !deepEqualV v (.obj []) &&
    (fieldsOf v).all fun kv => isCondOp kv.1

/-! ### `matchEq` / `matchNe` (structural equality with regex-vs-string
and array fan-out allowances) -/

/-- The regex-vs-string allowance of `matchEq`: a `Regex` operand tested
against a `String` leaf. -/
def eqRegexStr (E : RegexEngine) (ov doc : Value) : Bool :=
  match ov, doc with
  | .regex p f, .str s => E.test p f s
  | _, _ => false

mutual
def matchEq (E : RegexEngine) (doc : Value) (path : List String)
    (ov : Value) : Bool :=
  match path with
  | [] =>
    match doc with
    | .arr xs =>
      matchEqAny E xs [] ov || eqRegexStr E ov (.arr xs) ||
        deepEqualV (.arr xs) ov
    | d => eqRegexStr E ov d || deepEqualV d ov
  | key :: rest =>
    if h : jsHasProp doc key then matchEq E (jsGetProp doc key) rest ov
    else
      match doc with
      | .arr xs =>
        if h2 : isDigits key ∧ digitsToNat key < xs.length then
          matchEq E (xs.getD (digitsToNat key) .null) rest ov
        else matchEqAny E xs (key :: rest) ov
      | _ => isNilV ov
termination_by 1 + sizeV doc
decreasing_by
  all_goals try simp only [sizeLV, sizeV]
  all_goals first
  | (have g := sizeV_getProp h; omega)
  | (have g := sizeLV_getD h2.2; omega)
  | omega
def matchEqAny (E : RegexEngine) (xs : List Value) (path : List String)
    (ov : Value) : Bool :=
  match xs with
  | [] => false
  | x :: rest => matchEq E x path ov || matchEqAny E rest path ov
termination_by sizeLV xs
decreasing_by
  all_goals try simp only [sizeLV]
  all_goals omega
end

def matchNe (E : RegexEngine) (doc : Value) (path : List String)
    (ov : Value) : Bool :=
  !matchEq E doc path ov

/-! ### `matchIn` / `matchNin` -/

/-- The terminal list test of `matchIn`: some operand-list element
`$eq`-matches the leaf. -/
def inLeafList (E : RegexEngine) (doc ov : Value) : Bool :=
  match ov with
  | .arr os => os.any fun o => matchEq E doc [] o
  | _ => false

/-- `ov.includes(null) || ov.includes(undefined)` (SameValueZero). -/
def ovContainsNull (ov : Value) : Bool :=
  match ov with
  | .arr os => os.any fun o => jsStrictEq o .null
  | _ => false

mutual
def matchIn (E : RegexEngine) (doc : Value) (path : List String)
    (ov : Value) : Bool :=
  if !validateInNinV ov then false
  else
    match path with
    | [] =>
      match doc with
      | .arr xs => matchInAny E xs [] ov || inLeafList E (.arr xs) ov
      | d => inLeafList E d ov
    | key :: rest =>
      if h : jsHasProp doc key then matchIn E (jsGetProp doc key) rest ov
      else
        match doc with
        | .arr xs =>
          if h2 : isDigits key ∧ digitsToNat key < xs.length then
            matchIn E (xs.getD (digitsToNat key) .null) rest ov
          else matchInAny E xs (key :: rest) ov
        | _ => ovContainsNull ov
termination_by 1 + sizeV doc
decreasing_by
  all_goals try simp only [sizeLV, sizeV]
  all_goals first
  | (have g := sizeV_getProp h; omega)
  | (have g := sizeLV_getD h2.2; omega)
  | omega
def matchInAny (E : RegexEngine) (xs : List Value) (path : List String)
    (ov : Value) : Bool :=
  match xs with
  | [] => false
  | x :: rest => matchIn E x path ov || matchInAny E rest path ov
termination_by sizeLV xs
decreasing_by
  all_goals try simp only [sizeLV]
  all_goals omega
end

def matchNin (E : RegexEngine) (doc : Value) (path : List String)
    (ov : Value) : Bool :=
  if !validateInNinV ov then false
  else !matchIn E doc path ov

/-! ### Element-comparison loops of `matchGt` / `matchGte` / `matchLt` /
`matchLte`

The source compares arrays and plain objects with explicit index loops;
elements are tested with JavaScript `!==` / `>` / `<` (strict equality
and coercing relational comparison), keys with string `>` / `<`. -/

def strGtCU (a b : String) : Bool := strLtCU b a

def jsArrGtLoop : List Value → List Value → Bool
  | _ :: _, [] => true
  | [], _ => false
  | x :: xs, y :: ys =>
    if jsStrictEq x y then jsArrGtLoop xs ys else jsRelGt x y

def jsArrGteLoop : List Value → List Value → Bool
  | [], [] => true
  | [], _ :: _ => false
  | _ :: _, [] => true
  | x :: xs, y :: ys =>
    if jsStrictEq x y then jsArrGteLoop xs ys else jsRelGt x y

def jsArrLtLoop : List Value → List Value → Bool
  | [], [] => false
  | [], _ :: _ => true
  | _ :: _, [] => false
  | x :: xs, y :: ys =>
    if jsStrictEq x y then jsArrLtLoop xs ys else jsRelLt x y

def jsArrLteLoop : List Value → List Value → Bool
  | [], _ => true
  | _ :: _, [] => false
  | x :: xs, y :: ys =>
    if jsStrictEq x y then jsArrLteLoop xs ys else jsRelLt x y

def jsObjGtLoop : List (String × Value) → List (String × Value) → Bool
  | [], _ => false
  | _ :: _, [] => true
  | (dk, dv) :: ds, (ok, ov) :: os =>
    if dk = ok then
      if jsRelGt dv ov then true
      else if jsRelLt dv ov then false
      else jsObjGtLoop ds os
    else strGtCU dk ok

def jsObjGteLoop : List (String × Value) → List (String × Value) → Bool
  | [], [] => true
  | [], _ :: _ => false
  | _ :: _, [] => true
  | (dk, dv) :: ds, (ok, ov) :: os =>
    if dk = ok then
      if jsRelGt dv ov then true
      else if jsRelLt dv ov then false
      else jsObjGteLoop ds os
    else strGtCU dk ok

def jsObjLtLoop : List (String × Value) → List (String × Value) → Bool
  | [], [] => false
  | [], _ :: _ => true
  | _ :: _, [] => false
  | (dk, dv) :: ds, (ok, ov) :: os =>
    if dk = ok then
      if jsRelGt dv ov then false
      else if jsRelLt dv ov then true
      else jsObjLtLoop ds os
    else strLtCU dk ok

def jsObjLteLoop : List (String × Value) → List (String × Value) → Bool
  | [], _ => true
  | _ :: _, [] => false
  | (dk, dv) :: ds, (ok, ov) :: os =>
    if dk = ok then
      if jsRelLt dv ov then true
      else if jsRelGt dv ov then false
      else jsObjLteLoop ds os
    else strLtCU dk ok

/-! ### `matchGt` / `matchGte` / `matchLt` / `matchLte` -/

/-- The typed terminal comparison of `matchGt` (the if-chain after the
leaf fan-out): array loop, plain-object loop, numbers, strings, else
false. -/
def gtCompare : Value → Value → Bool
  | .arr xs, .arr ys => jsArrGtLoop xs ys
  | .obj fs, .obj gs => jsObjGtLoop fs gs
  | .num a, .num b => decide (b < a)
  | .str a, .str b => strGtCU a b
  | _, _ => false

/-- The typed terminal comparison of `matchGte` (empty objects compare
equal, `null` ≥ `null`). -/
def gteCompare : Value → Value → Bool
  | .arr xs, .arr ys => jsArrGteLoop xs ys
  | .obj fs, .obj gs =>
    if fs.isEmpty && gs.isEmpty then true else jsObjGteLoop fs gs
  | .num a, .num b => decide (b ≤ a)
  | .str a, .str b => !strLtCU a b
  | .null, .null => true
  | _, _ => false

/-- The typed terminal comparison of `matchLt`. -/
def ltCompare : Value → Value → Bool
  | .arr xs, .arr ys => jsArrLtLoop xs ys
  | .obj fs, .obj gs =>
    if fs.isEmpty && gs.isEmpty then false else jsObjLtLoop fs gs
  | .num a, .num b => decide (a < b)
  | .str a, .str b => strLtCU a b
  | _, _ => false

/-- The typed terminal comparison of `matchLte`. -/
def lteCompare : Value → Value → Bool
  | .arr xs, .arr ys => jsArrLteLoop xs ys
  | .obj fs, .obj gs =>
    if fs.isEmpty && gs.isEmpty then true else jsObjLteLoop fs gs
  | .num a, .num b => decide (a ≤ b)
  | .str a, .str b => !strLtCU b a
  | .null, .null => true
  | _, _ => false

mutual
def matchGt (doc : Value) (path : List String) (ov : Value) : Bool :=
  match path with
  | [] =>
    match doc with
    | .arr xs => matchGtAny xs [] ov || gtCompare (.arr xs) ov
    | d => gtCompare d ov
  | key :: rest =>
    if h : isPlainObjV doc && jsHasProp doc key then
      matchGt (jsGetProp doc key) rest ov
    else
      match doc with
      | .arr xs =>
        if h2 : isDigits key ∧ digitsToNat key < xs.length then
          matchGt (xs.getD (digitsToNat key) .null) rest ov
        else matchGtAny xs (key :: rest) ov
      | _ => false
termination_by 1 + sizeV doc
decreasing_by
  all_goals try simp only [sizeLV, sizeV]
  all_goals first
  | (simp only [Bool.and_eq_true] at h; have := sizeV_getProp h.2; omega)
  | (have g := sizeLV_getD h2.2; omega)
  | omega
def matchGtAny (xs : List Value) (path : List String) (ov : Value) : Bool :=
  match xs with
  | [] => false
  | x :: rest => matchGt x path ov || matchGtAny rest path ov
termination_by sizeLV xs
decreasing_by
  all_goals try simp only [sizeLV]
  all_goals omega
end

mutual
def matchGte (doc : Value) (path : List String) (ov : Value) : Bool :=
  match path with
  | [] =>
    match doc with
    | .arr xs => matchGteAny xs [] ov || gteCompare (.arr xs) ov
    | d => gteCompare d ov
  | key :: rest =>
    if h : isPlainObjV doc && jsHasProp doc key then
      matchGte (jsGetProp doc key) rest ov
    else
      match doc with
      | .arr xs =>
        if h2 : isDigits key ∧ digitsToNat key < xs.length then
          matchGte (xs.getD (digitsToNat key) .null) rest ov
        else matchGteAny xs (key :: rest) ov
      | _ => isNilV ov
termination_by 1 + sizeV doc
decreasing_by
  all_goals try simp only [sizeLV, sizeV]
  all_goals first
  | (simp only [Bool.and_eq_true] at h; have := sizeV_getProp h.2; omega)
  | (have g := sizeLV_getD h2.2; omega)
  | omega
def matchGteAny (xs : List Value) (path : List String) (ov : Value) : Bool :=
  match xs with
  | [] => false
  | x :: rest => matchGte x path ov || matchGteAny rest path ov
termination_by sizeLV xs
decreasing_by
  all_goals try simp only [sizeLV]
  all_goals omega
end

mutual
def matchLt (doc : Value) (path : List String) (ov : Value) : Bool :=
  match path with
  | [] =>
    match doc with
    | .arr xs => matchLtAny xs [] ov || ltCompare (.arr xs) ov
    | d => ltCompare d ov
  | key :: rest =>
    if h : isPlainObjV doc && jsHasProp doc key then
      matchLt (jsGetProp doc key) rest ov
    else
      match doc with
      | .arr xs =>
        if h2 : isDigits key ∧ digitsToNat key < xs.length then
          matchLt (xs.getD (digitsToNat key) .null) rest ov
        else matchLtAny xs (key :: rest) ov
      | _ => false
termination_by 1 + sizeV doc
decreasing_by
  all_goals try simp only [sizeLV, sizeV]
  all_goals first
  | (simp only [Bool.and_eq_true] at h; have := sizeV_getProp h.2; omega)
  | (have g := sizeLV_getD h2.2; omega)
  | omega
def matchLtAny (xs : List Value) (path : List String) (ov : Value) : Bool :=
  match xs with
  | [] => false
  | x :: rest => matchLt x path ov || matchLtAny rest path ov
termination_by sizeLV xs
decreasing_by
  all_goals try simp only [sizeLV]
  all_goals omega
end

mutual
def matchLte (doc : Value) (path : List String) (ov : Value) : Bool :=
  match path with
  | [] =>
    match doc with
    | .arr xs => matchLteAny xs [] ov || lteCompare (.arr xs) ov
    | d => lteCompare d ov
  | key :: rest =>
    if h : isPlainObjV doc && jsHasProp doc key then
      matchLte (jsGetProp doc key) rest ov
    else
      match doc with
      | .arr xs =>
        if h2 : isDigits key ∧ digitsToNat key < xs.length then
          matchLte (xs.getD (digitsToNat key) .null) rest ov
        else matchLteAny xs (key :: rest) ov
      | _ => isNilV ov
termination_by 1 + sizeV doc
decreasing_by
  all_goals try simp only [sizeLV, sizeV]
  all_goals first
  | (simp only [Bool.and_eq_true] at h; have := sizeV_getProp h.2; omega)
  | (have g := sizeLV_getD h2.2; omega)
  | omega
def matchLteAny (xs : List Value) (path : List String) (ov : Value) : Bool :=
  match xs with
  | [] => false
  | x :: rest => matchLte x path ov || matchLteAny rest path ov
termination_by sizeLV xs
decreasing_by
  all_goals try simp only [sizeLV]
  all_goals omega
end

/-! ### `matchMod` and `matchSize` -/

/-- The terminal computation of `matchMod`: `floor(doc % divisor)`
compared with `floor(remainder)` (floors are identities on the integer
model; division by zero gives `NaN`, which compares false).  JavaScript
`%` is the truncated remainder. -/
def jsModCheck (n d r : Int) : Bool :=
  if d = 0 then false else decide (Int.tmod n d = r)

/-- The terminal predicate of `matchMod` on a number leaf (the operand
shape is already guaranteed by the `validateMod` guard). -/
def modTerminal (n : Int) : Value → Bool
  | .arr [.num d, .num r] => jsModCheck n d r
  | _ => false

/-- The terminal predicate of `matchSize` on an array leaf:
`doc.length === Number.parseInt(ov)` (`parseInt` truncates; the identity
on the integer model). -/
def sizeTerminal (len : Nat) : Value → Bool
  | .num n => decide ((len : Int) = n)
  | _ => false

mutual
def matchMod (doc : Value) (path : List String) (ov : Value) : Bool :=
  if !validateModV ov then false
  else
    match path with
    | [] =>
      match doc with
      | .arr xs => matchModAny xs [] ov
      | .num n => modTerminal n ov
      | _ => false
    | key :: rest =>
      if h : jsHasProp doc key then matchMod (jsGetProp doc key) rest ov
      else
        match doc with
        | .arr xs =>
          if h2 : isDigits key ∧ digitsToNat key < xs.length then
            matchMod (xs.getD (digitsToNat key) .null) rest ov
          else matchModAny xs (key :: rest) ov
        | _ => false
termination_by 1 + sizeV doc
decreasing_by
  all_goals try simp only [sizeLV, sizeV]
  all_goals first
  | (have g := sizeV_getProp h; omega)
  | (have g := sizeLV_getD h2.2; omega)
  | omega
def matchModAny (xs : List Value) (path : List String) (ov : Value) : Bool :=
  match xs with
  | [] => false
  | x :: rest => matchMod x path ov || matchModAny rest path ov
termination_by sizeLV xs
decreasing_by
  all_goals try simp only [sizeLV]
  all_goals omega
end

mutual
def matchSize (doc : Value) (path : List String) (ov : Value) : Bool :=
  if !validateSizeV ov then false
  else
    match path with
    | [] =>
      match doc with
      | .arr xs => sizeTerminal xs.length ov
      | _ => false
    | key :: rest =>
      if h : jsHasProp doc key then matchSize (jsGetProp doc key) rest ov
      else
        match doc with
        | .arr xs =>
          if h2 : isDigits key ∧ digitsToNat key < xs.length then
            matchSize (xs.getD (digitsToNat key) .null) rest ov
          else matchSizeAny xs (key :: rest) ov
        | _ => false
termination_by 1 + sizeV doc
decreasing_by
  all_goals try simp only [sizeLV, sizeV]
  all_goals first
  | (have g := sizeV_getProp h; omega)
  | (have g := sizeLV_getD h2.2; omega)
  | omega
def matchSizeAny (xs : List Value) (path : List String) (ov : Value) : Bool :=
  match xs with
  | [] => false
  | x :: rest => matchSize x path ov || matchSizeAny rest path ov
termination_by sizeLV xs
decreasing_by
  all_goals try simp only [sizeLV]
  all_goals omega
end

/-! ### `matchRegex` (`$regex` with `$options`)

The only operator that can throw during matching: reading `.includes` off
a truthy non-string `$options` value raises a `TypeError`, and an invalid
pattern makes `new RegExp` raise a `SyntaxError`. -/

/-- The pattern handed to `new RegExp`: the source of a precompiled
regex, otherwise `ToString` of the operand. -/
def regexPatOf : Value → String
  | .regex p _ => p
  | v => jsToStringV v

/-- `v.includes(c)`: defined for strings (substring test, here a single
character) and arrays (SameValueZero element test); any other receiver
raises. -/
def valueIncludes (v : Value) (c : Char) : Except JsErr Bool :=
  match v with
  | .str s => .ok (s.contains c)
  | .arr xs => .ok (xs.any fun x => jsStrictEq x (.str (String.mk [c])))
  | .null => .error (.typeError "Cannot read properties of null (reading includes)")
  | _ => .error (.typeError "ov.$options.includes is not a function")

mutual
def matchRegexE (E : RegexEngine) (doc : Value) (path : List String)
    (rexv optv : Value) : Except JsErr Bool :=
  match path with
  | [] =>
    match doc with
    | .arr xs => matchRegexAnyE E xs [] rexv optv
    | .str s => do
      let bi ← valueIncludes optv 'i'
      let bm ← valueIncludes optv 'm'
      let bs ← valueIncludes optv 's'
      let flags := (if bi then "i" else "") ++ (if bm then "m" else "") ++
        (if bs then "s" else "")
      let pat := regexPatOf rexv
      if E.valid pat then .ok (E.test pat flags s)
      else .error (.syntaxError "Invalid regular expression")
    | _ => .ok false
  | key :: rest =>
    if h : jsHasProp doc key then
      matchRegexE E (jsGetProp doc key) rest rexv optv
    else
      match doc with
      | .arr xs =>
        if h2 : isDigits key ∧ digitsToNat key < xs.length then
          matchRegexE E (xs.getD (digitsToNat key) .null) rest rexv optv
        else matchRegexAnyE E xs (key :: rest) rexv optv
      | _ => .ok false
termination_by 1 + sizeV doc
decreasing_by
  all_goals try simp only [sizeLV, sizeV]
  all_goals first
  | (have g := sizeV_getProp h; omega)
  | (have g := sizeLV_getD h2.2; omega)
  | omega
def matchRegexAnyE (E : RegexEngine) (xs : List Value) (path : List String)
    (rexv optv : Value) : Except JsErr Bool :=
  match xs with
  | [] => .ok false
  | x :: rest => do
    let b ← matchRegexE E x path rexv optv
    if b then .ok true else matchRegexAnyE E rest path rexv optv
termination_by sizeLV xs
decreasing_by
  all_goals try simp only [sizeLV]
  all_goals omega
end

/-! ### The query evaluator (`matchCond` and the operators that recurse
into it)

`matchCond` iterates the query keys in insertion order, pushes one
boolean per combinator / operator / implicit-equality clause — with no
short-circuiting between clauses — and conjoins at the end, so an
exception in a later clause escapes even when an earlier clause is
already false.  `$and`/`$or` use `Array.prototype.every` / `some`, which
do short-circuit.

`for..in` enumeration of a non-object query (`queryEntries`) yields the
index entries of an array and nothing for primitives (enumeration of a
primitive string, a degenerate query, is left out of the model).

Two places in the source evaluate a freshly built one-entry query
`{key: v}` (the body of `matchNot`, and the `$and` rewrite of the
elemMatch-form of `matchAll`).  A one-entry query evaluates to exactly
its single entry (`matchCondE` of `.obj [(k, v)]` is `matchEntryE doc k
v`, proved below as `matchCondE_single`), and those two places call
`matchEntryE` directly so that evaluation is structurally decreasing. -/

/-- The scalar-form terminal of `matchAll`: every operand element either
appears in the leaf array by deep equality — via `Array.prototype.find`,
whose found element is then used as a truthiness test, so a falsy found
element does not count — or deep-equals the leaf array itself. -/
def allScalarLeaf (doc : Value) (os : List Value) : Bool :=
  match doc with
  | .arr xs =>
    os.all fun o =>
      (match xs.find? (fun dv => deepEqualV dv o) with
       | some dv => !jsFalsy dv
       | none => false) ||
      deepEqualV (.arr xs) o
  | _ => false

def queryEntries : Value → List (String × Value)
  | .obj fs => fs
  | .arr xs => xs.enum.map fun p => (toString p.1, p.2)
  | _ => []

theorem sizeFV_enumFrom (xs : List Value) : ∀ n : Nat,
    sizeFV ((List.enumFrom n xs).map fun p => (toString p.1, p.2)) = sizeLV xs := by
  induction xs with
  | nil => intro n; simp [List.enumFrom, sizeFV, sizeLV]
  | cons x rest ih => intro n; simp [List.enumFrom, sizeFV, sizeLV, ih]

theorem sizeFV_queryEntries (q : Value) : sizeFV (queryEntries q) < sizeV q := by
  cases q with
  | arr xs =>
    show sizeFV (xs.enum.map fun p => (toString p.1, p.2)) < sizeV (.arr xs)
    rw [List.enum, sizeFV_enumFrom]
    simp [sizeV]
  | obj fs => simp [queryEntries, sizeV]
  | null => simp [queryEntries, sizeFV, sizeV]
  | bool b => simp [queryEntries, sizeFV, sizeV]
  | num n => simp [queryEntries, sizeFV, sizeV]
  | str s => simp [queryEntries, sizeFV, sizeV]
  | regex p f => simp [queryEntries, sizeFV, sizeV]

mutual

def matchCondE (E : RegexEngine) (query doc : Value) : Except JsErr Bool := do
  let rs ← matchCondEntriesE E doc (queryEntries query)
  pure (rs.all id)
termination_by 1 + sizeV query + sizeV doc
decreasing_by
  all_goals (have g := sizeFV_queryEntries query; omega)

def matchCondEntriesE (E : RegexEngine) (doc : Value) :
    List (String × Value) → Except JsErr (List Bool)
  | [] => pure []
  | kv :: rest => do
    let b ← matchEntryE E doc kv.1 kv.2
    let bs ← matchCondEntriesE E doc rest
    pure (b :: bs)
termination_by entries => 1 + sizeFV entries + sizeV doc
decreasing_by
  all_goals simp only [sizeFV]
  all_goals omega

def matchEntryE (E : RegexEngine) (doc : Value) (k : String) (v : Value) :
    Except JsErr Bool :=
  if k = "$and" then matchAndE E doc v
  else if k = "$or" then matchOrE E doc v
  else if k = "$nor" then matchNorE E doc v
  else if checkAllExp v then matchExpE E doc k (fieldsOf v)
  else pure (matchEq E doc (splitDot k) v)
termination_by 3 + sizeV v + sizeV doc
decreasing_by
  all_goals (have g := sizeFV_fieldsOf v; omega)

def matchExpE (E : RegexEngine) (doc : Value) (k : String)
    (exp : List (String × Value)) : Except JsErr Bool := do
  let parts := splitDot k
  let rs : List Bool := []
  let rs := if hasKey exp "$eq" then
    rs ++ [matchEq E doc parts (lookupD exp "$eq")] else rs
  let rs := if hasKey exp "$ne" then
    rs ++ [matchNe E doc parts (lookupD exp "$ne")] else rs
  let rs := if hasKey exp "$gt" then
    rs ++ [matchGt doc parts (lookupD exp "$gt")] else rs
  let rs := if hasKey exp "$gte" then
    rs ++ [matchGte doc parts (lookupD exp "$gte")] else rs
  let rs := if hasKey exp "$lt" then
    rs ++ [matchLt doc parts (lookupD exp "$lt")] else rs
  let rs := if hasKey exp "$lte" then
    rs ++ [matchLte doc parts (lookupD exp "$lte")] else rs
  let rs := if hasKey exp "$in" then
    rs ++ [matchIn E doc parts (lookupD exp "$in")] else rs
  let rs := if hasKey exp "$nin" then
    rs ++ [matchNin E doc parts (lookupD exp "$nin")] else rs
  let rs ← if h9 : hasKey exp "$not" then do
      let b ← matchNotE E doc k (lookupD exp "$not")
      pure (rs ++ [b])
    else pure rs
  let rs ← if hasKey exp "$regex" then do
      let optv := lookupD exp "$options"
      let optv := if jsFalsy optv then Value.str "" else optv
      let b ← matchRegexE E doc parts (lookupD exp "$regex") optv
      pure (rs ++ [b])
    else pure rs
  let rs := if hasKey exp "$mod" then
    rs ++ [matchMod doc parts (lookupD exp "$mod")] else rs
  let rs ← if h12 : hasKey exp "$all" then do
      let b ← matchAllE E doc parts (lookupD exp "$all")
      pure (rs ++ [b])
    else pure rs
  let rs ← if h13 : hasKey exp "$elemMatch" then do
      let b ← matchElemMatchE E doc parts (lookupD exp "$elemMatch")
      pure (rs ++ [b])
    else pure rs
  let rs := if hasKey exp "$size" then
    rs ++ [matchSize doc parts (lookupD exp "$size")] else rs
  pure (rs.all id)
termination_by 2 + sizeFV exp + sizeV doc
decreasing_by
  all_goals first
  | (have g := sizeFV_lookupD h9; omega)
  | (have g := sizeFV_lookupD h12; omega)
  | (have g := sizeFV_lookupD h13; omega)

def matchAndE (E : RegexEngine) (doc ov : Value) : Except JsErr Bool :=
  match ov with
  | .arr conds => matchCondsAllE E doc conds
  | _ => pure false
termination_by 2 + sizeV ov + sizeV doc
decreasing_by
  all_goals simp only [sizeV]
  all_goals omega

def matchOrE (E : RegexEngine) (doc ov : Value) : Except JsErr Bool :=
  match ov with
  | .arr conds => matchCondsAnyE E doc conds
  | _ => pure false
termination_by 2 + sizeV ov + sizeV doc
decreasing_by
  all_goals simp only [sizeV]
  all_goals omega

def matchNorE (E : RegexEngine) (doc ov : Value) : Except JsErr Bool :=
  match ov with
  | .arr conds => do
    let b ← matchCondsAnyE E doc conds
    pure (!b)
  | _ => pure false
termination_by 2 + sizeV ov + sizeV doc
decreasing_by
  all_goals simp only [sizeV]
  all_goals omega

def matchCondsAllE (E : RegexEngine) (doc : Value) :
    List Value → Except JsErr Bool
  | [] => pure true
  | c :: rest => do
    let b ← matchCondE E c doc
    if b then matchCondsAllE E doc rest else pure false
termination_by conds => 1 + sizeLV conds + sizeV doc
decreasing_by
  all_goals simp only [sizeLV]
  all_goals omega

def matchCondsAnyE (E : RegexEngine) (doc : Value) :
    List Value → Except JsErr Bool
  | [] => pure false
  | c :: rest => do
    let b ← matchCondE E c doc
    if b then pure true else matchCondsAnyE E doc rest
termination_by conds => 1 + sizeLV conds + sizeV doc
decreasing_by
  all_goals simp only [sizeLV]
  all_goals omega

def matchNotE (E : RegexEngine) (doc : Value) (k : String) (q : Value) :
    Except JsErr Bool := do
  let b ← matchEntryE E doc k q
  pure (!b)
termination_by 4 + sizeV q + sizeV doc
decreasing_by
  all_goals omega

def matchElemMatchE (E : RegexEngine) (doc : Value) (path : List String)
    (ov : Value) : Except JsErr Bool :=
  match path with
  | [] => matchElemLeafE E doc ov
  | key :: rest =>
    if h : jsHasProp doc key then
      matchElemMatchE E (jsGetProp doc key) rest ov
    else if h2 : isArrV doc ∧ isDigits key ∧
        digitsToNat key < (arrElemsOf doc).length then
      matchElemMatchE E ((arrElemsOf doc).getD (digitsToNat key) .null) rest ov
    else if isArrV doc then
      matchElemMatchAnyE E ov (key :: rest) (arrElemsOf doc)
    else pure false
termination_by 3 + sizeV ov + sizeV doc
decreasing_by
  all_goals first
  | (have g := sizeV_getProp h; omega)
  | (have g := sizeV_arrGetD h2.2.2; omega)
  | (have g := sizeLV_arrElemsOf doc; omega)
  | omega

def matchElemLeafE (E : RegexEngine) (doc ov : Value) : Except JsErr Bool :=
  match doc with
  | .arr xs => matchElemCondAnyE E ov xs
  | _ => pure false
termination_by 2 + sizeV ov + sizeV doc
decreasing_by
  all_goals simp only [sizeV]
  all_goals omega

def matchElemCondAnyE (E : RegexEngine) (ov : Value) :
    List Value → Except JsErr Bool
  | [] => pure false
  | x :: rest => do
    let b ← matchCondE E ov x
    if b then pure true else matchElemCondAnyE E ov rest
termination_by xs => 2 + sizeV ov + sizeLV xs
decreasing_by
  all_goals simp only [sizeLV]
  all_goals omega

def matchElemMatchAnyE (E : RegexEngine) (ov : Value) (path : List String) :
    List Value → Except JsErr Bool
  | [] => pure false
  | x :: rest => do
    let b ← matchElemMatchE E x path ov
    if b then pure true else matchElemMatchAnyE E ov path rest
termination_by xs => 3 + sizeV ov + sizeLV xs
decreasing_by
  all_goals simp only [sizeLV]
  all_goals omega

def matchAllE (E : RegexEngine) (doc : Value) (path : List String)
    (ov : Value) : Except JsErr Bool :=
  if !validateAllV ov then pure false
  else if (arrElemsOf ov).isEmpty then pure false
  else if validateAllElemMatchV (arrElemsOf ov) then
    -- the `{$and: ov.map(o => ({[path.join(".")]: o}))}` rewrite,
    -- evaluated one single-entry conjunct at a time (see the section
    -- comment and `matchCondE_single`); `validateAll` guarantees `ov`
    -- is an array
    matchAllElemsE E (joinDot path) doc (arrElemsOf ov)
  else
    match path with
    | [] => pure (allScalarLeaf doc (arrElemsOf ov))
    | key :: rest =>
      if h : jsHasProp doc key then
        matchAllE E (jsGetProp doc key) rest ov
      else if h2 : isArrV doc ∧ isDigits key ∧
          digitsToNat key < (arrElemsOf doc).length then
        matchAllE E ((arrElemsOf doc).getD (digitsToNat key) .null) rest ov
      else if isArrV doc then
        matchAllAnyE E ov (key :: rest) (arrElemsOf doc)
      else pure false
termination_by 3 + sizeV ov + sizeV doc
decreasing_by
  all_goals first
  | (have g := sizeV_getProp h; omega)
  | (have g := sizeV_arrGetD h2.2.2; omega)
  | (have g := sizeLV_arrElemsOf doc; omega)
  | (have g := sizeLV_arrElemsOf ov; omega)
  | omega

def matchAllElemsE (E : RegexEngine) (p : String) (doc : Value) :
    List Value → Except JsErr Bool
  | [] => pure true
  | o :: rest => do
    let b ← matchEntryE E doc p o
    if b then matchAllElemsE E p doc rest else pure false
termination_by os => 1 + sizeLV os + sizeV doc
decreasing_by
  all_goals simp only [sizeLV]
  all_goals omega

def matchAllAnyE (E : RegexEngine) (ov : Value) (path : List String) :
    List Value → Except JsErr Bool
  | [] => pure false
  | x :: rest => do
    let b ← matchAllE E x path ov
    if b then pure true else matchAllAnyE E ov path rest
termination_by xs => 3 + sizeV ov + sizeLV xs
decreasing_by
  all_goals simp only [sizeLV]
  all_goals omega

end

/-- The facade: `Query(query).test(doc)`. -/
def testE (E : RegexEngine) (query doc : Value) : Except JsErr Bool :=
  matchCondE E query doc

/-! ### The validator (`validate`)

Structural checks only; the first failing check raises and later ones are
never reached.  `validate` recurses into combinator lists; it does not
look inside `$not`, `$elemMatch` or `$all` arguments.  A `RegExp` passes
the `instanceof Object` test and enumerates no own fields, so it
validates vacuously; any other non-object query raises. -/

mutual

def validateQ : Value → Except JsErr Bool
  | .obj fs => do
    validateEntriesE fs
    pure true
  | .regex _ _ => pure true
  | _ => .error (.typeError "query must be an object")
termination_by q => 1 + sizeV q
decreasing_by
  all_goals simp only [sizeV]
  all_goals omega

def validateEntryE (k : String) (v : Value) : Except JsErr Unit := do
    if isQueryOp k then
      if k = "$and" then
        if !validateQueryOpsV v then
          Except.error (.typeError "$and operator value must be an array")
        else pure ()
      else pure ()
      if k = "$or" then
        if !validateQueryOpsV v then
          Except.error (.typeError "$or operator value must be an array")
        else pure ()
      else pure ()
      if k = "$nor" then
        if !validateQueryOpsV v then
          Except.error (.typeError "$nor operator value must be an array")
        else pure ()
      else pure ()
      if isArrV v then validateCondsE (arrElemsOf v) else pure ()
    else
      if checkAllExp v then
        let exp := fieldsOf v
        if hasKey exp "$in" && !validateInNinV (lookupD exp "$in") then
          Except.error (.typeError "$in operator value must be an array")
        else pure ()
        if hasKey exp "$nin" && !validateInNinV (lookupD exp "$nin") then
          Except.error (.typeError "$nin operator value must be an array")
        else pure ()
        if hasKey exp "$all" && !validateAllV (lookupD exp "$all") then
          Except.error (.typeError "$all operator value must be an array")
        else pure ()
        if hasKey exp "$mod" && !validateModV (lookupD exp "$mod") then
          Except.error (.typeError "$mod operator value must be an array of 2 numbers")
        else pure ()
        if hasKey exp "$size" && !validateSizeV (lookupD exp "$size") then
          Except.error (.typeError "$size operator value must be a number")
        else pure ()
      else pure ()
termination_by 1 + sizeV v
decreasing_by
  all_goals (have g := sizeLV_arrElemsOf v; omega)

def validateEntriesE : List (String × Value) → Except JsErr Unit
  | [] => pure ()
  | (k, v) :: rest => do
    validateEntryE k v
    validateEntriesE rest
termination_by fs => 1 + sizeFV fs
decreasing_by
  all_goals simp only [sizeFV, sizeV]
  all_goals omega

def validateCondsE : List Value → Except JsErr Unit
  | [] => pure ()
  | c :: rest => do
    let _ ← validateQ c
    validateCondsE rest
termination_by cs => 1 + sizeLV cs
decreasing_by
  all_goals simp only [sizeLV]
  all_goals omega

end

/-! ### Shared reduction lemmas -/

theorem isQueryOp_false_iff (p : String) :
    isQueryOp p = false ↔ p ≠ "$and" ∧ p ≠ "$or" ∧ p ≠ "$nor" := by
  simp [isQueryOp, queryOpsList]

/-- A one-entry query evaluates to exactly its entry. -/
theorem matchCondE_single (E : RegexEngine) (k : String) (v doc : Value) :
    matchCondE E (.obj [(k, v)]) doc = matchEntryE E doc k v := by
  cases h : matchEntryE E doc k v <;>
    simp [matchCondE, matchCondEntriesE, queryEntries, h, bind, Except.bind,
      pure, Except.pure]

theorem matchEqAny_eq_any (E : RegexEngine) (xs : List Value)
    (path : List String) (ov : Value) :
    matchEqAny E xs path ov = xs.any fun x => matchEq E x path ov := by
  induction xs with
  | nil => simp [matchEqAny]
  | cons x rest ih => simp [matchEqAny, ih]

theorem matchGtAny_eq_any (xs : List Value) (path : List String) (ov : Value) :
    matchGtAny xs path ov = xs.any fun x => matchGt x path ov := by
  induction xs with
  | nil => simp [matchGtAny]
  | cons x rest ih => simp [matchGtAny, ih]

theorem matchLtAny_eq_any (xs : List Value) (path : List String) (ov : Value) :
    matchLtAny xs path ov = xs.any fun x => matchLt x path ov := by
  induction xs with
  | nil => simp [matchLtAny]
  | cons x rest ih => simp [matchLtAny, ih]

/-! ### Specification-side definitions

These definitions follow the wording of the specification and of the
claims under verification (not the source); they exist to be compared
with the source-derived definitions above. -/

/-- Code-unit three-way string comparison (spec wording for the key and
string cases of the typed order). -/
def strCmpCU (a b : String) : Ordering :=
  if strLtCU a b then .lt else if strLtCU b a then .gt else .eq

mutual
/-- The recursive typed comparison of the specification: numbers
numerically, strings by code units, arrays element-wise lexicographic
(first differing Value decides), maps lexicographic over
insertion-ordered key sequences; mixed types are incomparable. -/
def specTypedCmp : Value → Value → Option Ordering
  | .null, .null => some .eq
  | .num a, .num b => some (compare a b)
  | .str a, .str b => some (strCmpCU a b)
  | .arr xs, .arr ys => specListCmp xs ys
  | .obj fs, .obj gs => specFieldsCmp fs gs
  | _, _ => none
termination_by a _ => 1 + sizeV a
decreasing_by
  all_goals simp only [sizeV]
  all_goals omega
/-- Claim C2 wording: scanning `i = 0..`, an exhausted side makes the
shorter array the lesser; at the first index whose elements are not
equal as Values, the recursive typed comparison decides; all equal means
equal. -/
def specListCmp : List Value → List Value → Option Ordering
  | [], [] => some .eq
  | [], _ :: _ => some .lt
  | _ :: _, [] => some .gt
  | x :: xs, y :: ys =>
    if deepEqualV x y then specListCmp xs ys else specTypedCmp x y
termination_by xs _ => sizeLV xs
decreasing_by
  all_goals simp only [sizeLV]
  all_goals omega
/-- Spec map order: pairs in parallel, key name first, then value; an
exhausted side is the lesser. -/
def specFieldsCmp :
    List (String × Value) → List (String × Value) → Option Ordering
  | [], [] => some .eq
  | [], _ :: _ => some .lt
  | _ :: _, [] => some .gt
  | (dk, dv) :: ds, (ok, ov) :: os =>
    if dk = ok then
      match specTypedCmp dv ov with
      | some .eq => specFieldsCmp ds os
      | r => r
    else some (strCmpCU dk ok)
termination_by fs _ => sizeFV fs
decreasing_by
  all_goals simp only [sizeFV]
  all_goals omega
end

/-- Claim C2 as stated: array `$gt` is the typed lexicographic order. -/
def specArrGtClaim (xs ys : List Value) : Bool :=
  match specListCmp xs ys with
  | some .gt => true
  | _ => false

/-- Claim C2 as stated: array `$lt` is the typed lexicographic order. -/
def specArrLtClaim (xs ys : List Value) : Bool :=
  match specListCmp xs ys with
  | some .lt => true
  | _ => false

/-- Amended claim C2 wording for `$gt`: scanning `i = 0..`, if the
operand side is exhausted first the document array is greater, if the
document side is exhausted it is not; at the first index whose elements
differ under JavaScript strict equality, the JavaScript relational
comparison `a[i] > b[i]` (with its coercions) decides; if the scan ends
with all positions strictly equal, not greater. -/
def specArrGtJs : List Value → List Value → Bool
  | [], _ => false
  | _ :: _, [] => true
  | x :: xs, y :: ys =>
    if jsStrictEq x y then specArrGtJs xs ys else jsRelGt x y

/-- Amended claim C2 wording for `$lt` (dually, with `a[i] < b[i]`). -/
def specArrLtJs : List Value → List Value → Bool
  | [], [] => false
  | [], _ :: _ => true
  | _ :: _, [] => false
  | x :: xs, y :: ys =>
    if jsStrictEq x y then specArrLtJs xs ys else jsRelLt x y

theorem jsArrGtLoop_eq_spec (xs ys : List Value) :
    jsArrGtLoop xs ys = specArrGtJs xs ys := by
  induction xs generalizing ys with
  | nil => cases ys <;> simp [jsArrGtLoop, specArrGtJs]
  | cons x rest ih =>
    cases ys with
    | nil => simp [jsArrGtLoop, specArrGtJs]
    | cons y yr => simp [jsArrGtLoop, specArrGtJs, ih]

theorem jsArrLtLoop_eq_spec (xs ys : List Value) :
    jsArrLtLoop xs ys = specArrLtJs xs ys := by
  induction xs generalizing ys with
  | nil => cases ys <;> simp [jsArrLtLoop, specArrLtJs]
  | cons x rest ih =>
    cases ys with
    | nil => simp [jsArrLtLoop, specArrLtJs]
    | cons y yr => simp [jsArrLtLoop, specArrLtJs, ih]

/-! Path absence (claim C4).  `reachesB` says the dotted path resolves to
a value somewhere in the document (under map lookup, array indexing or
array fan-out); `absentB` says the matcher traversal dead-ends at an
absent key, where a dead end inside an array counts only if some element
dead-ends (an empty array therefore has no dead end). -/

mutual
def reachesB : Value → List String → Bool
  | _, [] => true
  | doc, key :: rest =>
    match doc with
    | .obj fs =>
      if h : hasKey fs key then reachesB (lookupD fs key) rest else false
    | .arr xs =>
      (if h2 : isDigits key ∧ digitsToNat key < xs.length then
        reachesB (xs.getD (digitsToNat key) .null) rest
       else false) ||
      reachesAnyB xs (key :: rest)
    | _ => false
termination_by doc _ => 1 + sizeV doc
decreasing_by
  all_goals try simp only [sizeV]
  all_goals first
  | (have h3 := sizeFV_lookupD h; omega)
  | (have h3 := sizeLV_getD h2.2; omega)
  | omega
def reachesAnyB : List Value → List String → Bool
  | [], _ => false
  | x :: rest, path => reachesB x path || reachesAnyB rest path
termination_by xs _ => sizeLV xs
decreasing_by
  all_goals simp only [sizeLV]
  all_goals omega
end

mutual
def absentB : Value → List String → Bool
  | _, [] => false
  | doc, key :: rest =>
    if h : jsHasProp doc key then absentB (jsGetProp doc key) rest
    else
      match doc with
      | .arr xs =>
        if h2 : isDigits key ∧ digitsToNat key < xs.length then
          absentB (xs.getD (digitsToNat key) .null) rest
        else absentAnyB xs (key :: rest)
      | _ => true
termination_by doc _ => 1 + sizeV doc
decreasing_by
  all_goals try simp only [sizeV]
  all_goals first
  | (have h3 := sizeV_getProp h; omega)
  | (have h3 := sizeLV_getD h2.2; omega)
  | omega
def absentAnyB : List Value → List String → Bool
  | [], _ => false
  | x :: rest, path => absentB x path || absentAnyB rest path
termination_by xs _ => sizeLV xs
decreasing_by
  all_goals simp only [sizeLV]
  all_goals omega
end

/-! Checked `$mod` positions (amended claim C9): the places where
`validate` actually inspects a `$mod` argument — expressions directly
under a path key of the query or of a sub-query reached through
combinator lists. -/

def entryModInvalid (k : String) (v : Value) : Bool :=
  !isQueryOp k && checkAllExp v && hasKey (fieldsOf v) "$mod" &&
    !validateModV (lookupD (fieldsOf v) "$mod")

mutual
def checkedModInvalid : Value → Bool
  | .obj fs => cmiEntries fs
  | _ => false
termination_by q => 2 + sizeV q
decreasing_by
  all_goals simp only [sizeV]
  all_goals omega
def cmiEntries : List (String × Value) → Bool
  | [] => false
  | (k, v) :: rest => entryCmi k v || cmiEntries rest
termination_by fs => 2 + sizeFV fs
decreasing_by
  all_goals simp only [sizeFV, sizeV]
  all_goals omega
def entryCmi (k : String) (v : Value) : Bool :=
  entryModInvalid k v || (isQueryOp k && cmiConds (arrElemsOf v))
termination_by 2 + sizeV v
decreasing_by
  all_goals (have g := sizeLV_arrElemsOf v; omega)
def cmiConds : List Value → Bool
  | [] => false
  | c :: rest => checkedModInvalid c || cmiConds rest
termination_by cs => 1 + sizeLV cs
decreasing_by
  all_goals simp only [sizeLV]
  all_goals omega
end

/-- The `$mod` structural-error message. -/
def modMsgStr : String := "$mod operator value must be an array of 2 numbers"

/-! ### Claim theorems -/

/-- Claim C1 (code bug): `test` is not total.  With the query
`foo: ($regex: "a", $options: true)` and the document `foo: "b"`, the
`$regex` clause reads `.includes` off the boolean `$options` value and
raises a `TypeError` instead of evaluating to `false` — for every regex
engine, since the throw happens before the pattern is compiled. -/
theorem test_raises_typeError_on_nonstring_options :
    ∀ E : RegexEngine,
      testE E
        (.obj [("foo", .obj [("$regex", .str "a"), ("$options", .bool true)])])
        (.obj [("foo", .str "b")]) =
      .error (.typeError "ov.$options.includes is not a function") := by
  intro E
  simp [testE, matchCondE, matchCondEntriesE, matchEntryE, matchExpE,
    queryEntries, checkAllExp, isQueryOp, isCondOp, condOpsList, queryOpsList,
    fieldsOf, hasKey, lookupD, jsFalsy, isPlainObjV, deepEqualV, deepEqualFV,
    splitDot, splitChars, jsHasProp, jsGetProp, isCanonicalIdx, isDigits,
    matchRegexE, valueIncludes, List.mem_cons, List.not_mem_nil, bind,
    Except.bind, pure, Except.pure]

/-- Claim C5: filtering the four documents of the nested/fan-out scenario
with the predicate of `"foo.bar": ($gt: 1)` keeps exactly the first and
third: the intermediate array fans out with the full unchanged segment
list and the leaf array fans out over its elements. -/
theorem gt_fanout_scenario_filter :
    ∀ E : RegexEngine,
      ([Value.obj [("foo", .arr [.obj [("bar", .arr [.num 1, .num 2])]])],
        Value.obj [("foo", .obj [("bar", .num 1)])],
        Value.obj [("foo", .obj [("bar", .num 2)])],
        Value.obj [("foo", Value.null)]].filter fun d =>
          (matchCondE E (.obj [("foo.bar", .obj [("$gt", .num 1)])])
              d).toOption.getD false) =
      [Value.obj [("foo", .arr [.obj [("bar", .arr [.num 1, .num 2])]])],
       Value.obj [("foo", .obj [("bar", .num 2)])]] := by
  intro E
  simp [matchCondE, matchCondEntriesE, matchEntryE, matchExpE, queryEntries,
    checkAllExp, isQueryOp, isCondOp, condOpsList, queryOpsList, fieldsOf,
    hasKey, lookupD, jsFalsy, isPlainObjV, deepEqualV, deepEqualFV, splitDot,
    splitChars, matchGt, matchGtAny, gtCompare, jsHasProp, jsGetProp,
    isCanonicalIdx, isDigits, jsArrGtLoop, jsObjGtLoop, jsStrictEq, jsRelGt,
    jsRelLt, toPrim, primToNum, strLtCU, charListLt, List.mem_cons,
    List.not_mem_nil, bind, Except.bind, pure, Except.pure, List.filter,
    Except.toOption]

/-- Claim C6: filtering the five documents of the map-vs-map scenario
with the predicate of `"foo.bar": ($gte: (baz: "qux"))` keeps exactly the
last three, following the insertion-ordered lexicographic map
comparison. -/
theorem gte_map_insertion_order_filter :
    ∀ E : RegexEngine,
      ([Value.obj [("foo", .obj [("bar", .obj [("baa", .str "zap")])])],
        Value.obj [("foo", .obj [("bar", .obj [("baz", .str "bux")])])],
        Value.obj [("foo", .obj [("bar", .obj [("baz", .str "qux")])])],
        Value.obj [("foo", .obj [("bar", .obj [("baz", .str "zap")])])],
        Value.obj [("foo", .obj [("bar", .obj [("bla", .str "jaz")])])]].filter
          fun d =>
            (matchCondE E
                (.obj [("foo.bar", .obj [("$gte", .obj [("baz", .str "qux")])])])
                d).toOption.getD false) =
      [Value.obj [("foo", .obj [("bar", .obj [("baz", .str "qux")])])],
       Value.obj [("foo", .obj [("bar", .obj [("baz", .str "zap")])])],
       Value.obj [("foo", .obj [("bar", .obj [("bla", .str "jaz")])])]] := by
  intro E
  simp [matchCondE, matchCondEntriesE, matchEntryE, matchExpE, queryEntries,
    checkAllExp, isQueryOp, isCondOp, condOpsList, queryOpsList, fieldsOf,
    hasKey, lookupD, jsFalsy, isPlainObjV, deepEqualV, deepEqualFV, splitDot,
    splitChars, matchGte, matchGteAny, gteCompare, jsHasProp, jsGetProp,
    isCanonicalIdx, isDigits, jsArrGteLoop, jsObjGteLoop, jsStrictEq, jsRelGt,
    jsRelLt, toPrim, primToNum, strLtCU, charListLt, strGtCU, List.mem_cons,
    List.not_mem_nil, bind, Except.bind, pure, Except.pure, List.filter,
    Except.toOption]

/-- Claim C8: at the leaf, `$size` with a number operand matches exactly
the arrays whose length equals the operand (truncation is the identity on
the integer number model); a non-array leaf never matches and no fan-out
over the leaf elements happens. -/
theorem size_terminal_characterization :
    ∀ (v : Value) (n : Int),
      matchSize v [] (.num n) = true ↔
        ∃ xs, v = .arr xs ∧ (xs.length : Int) = n := by
  intro v n
  cases v <;> simp [matchSize, validateSizeV, sizeTerminal]

/-- Claim C2 counterexample: on the leaf array `[2]` with operand
`["1"]`, `$gt` answers `true` (JavaScript `2 > "1"` coerces the string),
while the typed element-wise rule stated in the claim makes a number and
a string incomparable, hence not greater. -/
theorem gt_array_typed_counterexample :
    matchGt (.arr [.num 2]) [] (.arr [.str "1"]) = true ∧
    specArrGtClaim [.num 2] [.str "1"] = false := by
  constructor
  · simp only [matchGt, matchGtAny, gtCompare, jsArrGtLoop]
    decide
  · simp [specArrGtClaim, specListCmp, specTypedCmp, deepEqualV]

/-- Claim C2 (amended): at a leaf array, `$gt` (and `$lt`) first fan out
over the elements, and compare the document array with the operand array
element-wise lexicographically with JavaScript strict equality deciding "same" and
the coercing JavaScript relational comparison deciding the outcome at
the first strictly-differing index; an exhausted side makes the shorter
array the lesser, and a scan with all positions strictly equal makes
neither array greater nor less. -/
theorem gt_lt_array_elementwise_js :
    ∀ xs ys : List Value,
      matchGt (.arr xs) [] (.arr ys) =
        (xs.any (fun d => matchGt d [] (.arr ys)) || specArrGtJs xs ys) ∧
      matchLt (.arr xs) [] (.arr ys) =
        (xs.any (fun d => matchLt d [] (.arr ys)) || specArrLtJs xs ys) := by
  intro xs ys
  constructor
  · rw [show matchGt (.arr xs) [] (.arr ys) =
        (matchGtAny xs [] (.arr ys) || gtCompare (.arr xs) (.arr ys)) from by
      simp [matchGt]]
    rw [matchGtAny_eq_any]
    simp [gtCompare, jsArrGtLoop_eq_spec]
  · rw [show matchLt (.arr xs) [] (.arr ys) =
        (matchLtAny xs [] (.arr ys) || ltCompare (.arr xs) (.arr ys)) from by
      simp [matchLt]]
    rw [matchLtAny_eq_any]
    simp [ltCompare, jsArrLtLoop_eq_spec]

/-- Claim C3 counterexample: with the non-array operand `1`, both
`a: ($nin: 1)` and `a: ($in: 1)` evaluate to `false` on the empty
document, so `$nin` is not the negation of `$in` there. -/
theorem nin_in_nonarray_counterexample :
    matchCondE nullEngine (.obj [("a", .obj [("$nin", .num 1)])]) (.obj []) =
      .ok false ∧
    matchCondE nullEngine (.obj [("a", .obj [("$in", .num 1)])]) (.obj []) =
      .ok false := by
  constructor <;>
    simp [matchCondE, matchCondEntriesE, matchEntryE, matchExpE, queryEntries,
      checkAllExp, isQueryOp, isCondOp, condOpsList, queryOpsList, fieldsOf,
      hasKey, lookupD, jsFalsy, isPlainObjV, deepEqualV, deepEqualFV,
      matchIn, matchNin, validateInNinV, splitDot, splitChars, List.mem_cons,
      List.not_mem_nil, bind, Except.bind, pure, Except.pure]

theorem matchIn_nonarray_operand (E : RegexEngine) (doc : Value)
    (path : List String) (ov : Value) (hv : validateInNinV ov = false) :
    matchIn E doc path ov = false := by
  cases path <;> cases doc <;> simp [matchIn, hv]

/-- Claim C3 (amended): for every array operand, the `$nin` clause is
exactly the negation of the `$in` clause at the same path; for a
non-array operand both clauses evaluate to `false` (and so are not
negations of one another). -/
theorem nin_negates_in_on_array_operand :
    ∀ (E : RegexEngine) (doc : Value) (p : String) (ov : Value),
      isQueryOp p = false →
      ((validateInNinV ov = true →
          matchCondE E (.obj [(p, .obj [("$nin", ov)])]) doc =
            Bool.not <$> matchCondE E (.obj [(p, .obj [("$in", ov)])]) doc) ∧
        (validateInNinV ov = false →
          matchCondE E (.obj [(p, .obj [("$nin", ov)])]) doc = .ok false ∧
          matchCondE E (.obj [(p, .obj [("$in", ov)])]) doc = .ok false)) := by
  intro E doc p ov hp
  obtain ⟨h1, h2, h3⟩ := (isQueryOp_false_iff p).mp hp
  have hnin : matchCondE E (.obj [(p, .obj [("$nin", ov)])]) doc =
      .ok (matchNin E doc (splitDot p) ov) := by
    rw [matchCondE_single]
    simp [matchEntryE, h1, h2, h3, checkAllExp, jsFalsy, isPlainObjV,
      deepEqualV, deepEqualFV, fieldsOf, isCondOp, condOpsList, matchExpE,
      hasKey, lookupD, List.mem_cons, List.not_mem_nil, bind, Except.bind,
      pure, Except.pure]
  have hin : matchCondE E (.obj [(p, .obj [("$in", ov)])]) doc =
      .ok (matchIn E doc (splitDot p) ov) := by
    rw [matchCondE_single]
    simp [matchEntryE, h1, h2, h3, checkAllExp, jsFalsy, isPlainObjV,
      deepEqualV, deepEqualFV, fieldsOf, isCondOp, condOpsList, matchExpE,
      hasKey, lookupD, List.mem_cons, List.not_mem_nil, bind, Except.bind,
      pure, Except.pure]
  constructor
  · intro hv
    rw [hnin, hin]
    simp [matchNin, hv, Functor.map, Except.map]
  · intro hv
    rw [hnin, hin]
    constructor
    · simp [matchNin, hv]
    · simp [matchIn_nonarray_operand E doc (splitDot p) ov hv]

/-- Witness for the amended claim C3 at a concrete instance. -/
theorem nin_negates_in_witness :
    matchCondE nullEngine (.obj [("a", .obj [("$nin", .arr [.num 1])])])
        (.obj []) =
      Bool.not <$>
        matchCondE nullEngine (.obj [("a", .obj [("$in", .arr [.num 1])])])
          (.obj []) :=
  (nin_negates_in_on_array_operand nullEngine (.obj []) "a" (.arr [.num 1])
      (by decide)).1 (by decide)

theorem absentAnyB_eq_any (xs : List Value) (path : List String) :
    absentAnyB xs path = xs.any fun x => absentB x path := by
  induction xs with
  | nil => simp [absentAnyB]
  | cons x rest ih => simp [absentAnyB, ih]

/-- Core of claim C4 (amended): wherever the traversal dead-ends at an
absent key on a non-array node (dead ends inside arrays counting only
through some dead-ending element), `$eq` with operand `null` answers
`true`. -/
theorem matchEq_null_of_absentB (E : RegexEngine) :
    ∀ (N : Nat) (doc : Value) (path : List String), sizeV doc ≤ N →
      absentB doc path = true → matchEq E doc path .null = true := by
  intro N
  induction N with
  | zero =>
    intro doc path hsz _
    exact absurd hsz (by have := sizeV_pos doc; omega)
  | succ N ih =>
    intro doc path hsz hab
    cases path with
    | nil => simp [absentB] at hab
    | cons key rest =>
      cases doc with
      | null => simp [matchEq, isNilV, jsHasProp]
      | bool b => simp [matchEq, isNilV, jsHasProp]
      | num n => simp [matchEq, isNilV, jsHasProp]
      | str s => simp [matchEq, isNilV, jsHasProp]
      | regex p f => simp [matchEq, isNilV, jsHasProp]
      | obj fs =>
        by_cases hk : hasKey fs key
        · have hp : jsHasProp (.obj fs) key = true := by simp [jsHasProp, hk]
          have hs := sizeV_getProp hp
          have h1 : absentB (lookupD fs key) rest = true := by
            simpa [absentB, hp, jsGetProp] using hab
          have h2 := ih (lookupD fs key) rest (by simp [jsGetProp] at hs; omega) h1
          simp [matchEq, hp, jsGetProp, h2]
        · have hp : jsHasProp (.obj fs) key = false := by simp [jsHasProp, hk]
          simp [matchEq, hp, isNilV]
      | arr xs =>
        by_cases hc : isCanonicalIdx key xs.length
        · have hp : jsHasProp (.arr xs) key = true := by simp [jsHasProp, hc]
          have hs := sizeV_getProp hp
          simp only [jsGetProp] at hs
          have h1 : absentB (xs.getD (digitsToNat key) .null) rest = true := by
            simpa [absentB, hp, jsGetProp] using hab
          have h2 := ih (xs.getD (digitsToNat key) .null) rest (by omega) h1
          simp only [List.getD_eq_getElem?_getD] at h2
          simp [matchEq, hp, jsGetProp, h2]
        · have hp : jsHasProp (.arr xs) key = false := by simp [jsHasProp, hc]
          by_cases hd : isDigits key ∧ digitsToNat key < xs.length
          · have h1 : absentB (xs.getD (digitsToNat key) .null) rest = true := by
              simpa [absentB, hp, hd] using hab
            have hsl := sizeLV_getD hd.2
            have h2 := ih (xs.getD (digitsToNat key) .null) rest
              (by simp [sizeV] at hsz; omega) h1
            simp only [List.getD_eq_getElem?_getD,
              List.getElem?_eq_getElem hd.2, Option.getD_some] at h2
            simp [matchEq, hp, hd, h2]
          · have h1 : absentAnyB xs (key :: rest) = true := by
              simpa [absentB, hp, hd] using hab
            rw [absentAnyB_eq_any] at h1
            obtain ⟨x, hx, hax⟩ := List.any_eq_true.mp h1
            have hsx := sizeLV_mem hx
            have h2 := ih x (key :: rest) (by simp [sizeV] at hsz; omega) hax
            have h3 : matchEqAny E xs (key :: rest) .null = true := by
              rw [matchEqAny_eq_any]
              exact List.any_eq_true.mpr ⟨x, hx, h2⟩
            simp [matchEq, hp, hd, h3]

/-- Claim C4 counterexample: the path `foo.bar` does not reach a value in
the document `foo: []` (the traversal dead-ends inside the empty array),
yet the query `"foo.bar": null` does not match — the fan-out over zero
elements yields `false`, not the claimed `true`. -/
theorem null_match_empty_array_counterexample :
    reachesB (.obj [("foo", .arr [])]) ["foo", "bar"] = false ∧
    matchCondE nullEngine (.obj [("foo.bar", Value.null)])
      (.obj [("foo", .arr [])]) = .ok false := by
  constructor
  · simp [reachesB, reachesAnyB, hasKey, lookupD, isDigits, digitsToNat,
      isCanonicalIdx]
  · simp [matchCondE, matchCondEntriesE, matchEntryE, matchExpE, queryEntries,
      checkAllExp, isQueryOp, isCondOp, condOpsList, queryOpsList, fieldsOf,
      hasKey, lookupD, jsFalsy, isPlainObjV, deepEqualV, deepEqualFV,
      splitDot, splitChars, matchEq, matchEqAny, eqRegexStr, isNilV,
      jsHasProp, jsGetProp, isCanonicalIdx, isDigits, List.mem_cons,
      List.not_mem_nil, bind, Except.bind, pure, Except.pure]

/-- Claim C4 (amended): `path: null` matches every document in which the
traversal of the dotted path dead-ends at an absent key on a non-array
node, where a dead end inside an array counts only if some element of
the array dead-ends; in particular an empty array on the path (with no
index match) yields `false` instead. -/
theorem null_matches_absent_nonarray_path :
    ∀ (E : RegexEngine) (doc : Value) (p : String),
      isQueryOp p = false → absentB doc (splitDot p) = true →
      matchCondE E (.obj [(p, Value.null)]) doc = .ok true := by
  intro E doc p hp hab
  obtain ⟨h1, h2, h3⟩ := (isQueryOp_false_iff p).mp hp
  rw [matchCondE_single]
  have hm := matchEq_null_of_absentB E (sizeV doc) doc (splitDot p) le_rfl hab
  simp [matchEntryE, h1, h2, h3, checkAllExp, jsFalsy, hm, bind, Except.bind,
    pure, Except.pure]

/-- Witness for the amended claim C4 at a concrete instance: `foo.bar`
is absent from `foo: (empty map)`. -/
theorem null_matches_absent_witness :
    matchCondE nullEngine (.obj [("foo.bar", Value.null)])
      (.obj [("foo", .obj [])]) = .ok true :=
  null_matches_absent_nonarray_path nullEngine (.obj [("foo", .obj [])])
    "foo.bar" (by decide)
    (by simp [absentB, absentAnyB, splitDot, splitChars, jsHasProp, jsGetProp,
      hasKey, lookupD, isCanonicalIdx, isDigits])

theorem matchAllElemsE_eq_conds (E : RegexEngine) (p : String) (doc : Value) :
    ∀ os : List Value,
      matchAllElemsE E p doc os =
        matchCondsAllE E doc (os.map fun o => .obj [(p, o)]) := by
  intro os
  induction os with
  | nil => simp [matchAllElemsE, matchCondsAllE]
  | cons o rest ih =>
    simp only [List.map_cons, matchAllElemsE, matchCondsAllE,
      matchCondE_single]
    cases h : matchEntryE E doc p o with
    | error e => simp [h, bind, Except.bind]
    | ok b => cases b <;> simp [h, bind, Except.bind, ih]

theorem validateAllElemMatchV_of {os : List Value}
    (h : ∀ o ∈ os, ∃ fs, o = Value.obj fs ∧ hasKey fs "$elemMatch" = true) :
    validateAllElemMatchV os = true := by
  simp only [validateAllElemMatchV, List.all_eq_true]
  intro o ho
  obtain ⟨fs, rfl, hk⟩ := h o ho
  simpa using hk

theorem validateAllV_of {os : List Value}
    (h : ∀ o ∈ os, ∃ fs, o = Value.obj fs ∧ hasKey fs "$elemMatch" = true) :
    validateAllV (.arr os) = true := by
  simp only [validateAllV]
  by_cases he : os.isEmpty
  · simp [he]
  · simp only [he, if_false]
    by_cases hall : os.all fun o =>
        isPlainObjV o && (fieldsOf o).any fun kv => kv.1.startsWith "$"
    · simp [hall, validateAllElemMatchV_of h]
    · simp [hall]

/-- Claim C7 counterexample: with the vacuously elemMatch-form empty
operand list, `a: ($all: empty)` is `false` on the empty document while
the rewritten `$and` of no conjuncts is `true`. -/
theorem all_elemmatch_empty_list_counterexample :
    matchCondE nullEngine (.obj [("a", .obj [("$all", .arr [])])]) (.obj []) =
      .ok false ∧
    matchCondE nullEngine (.obj [("$and", .arr [])]) (.obj []) = .ok true := by
  constructor <;>
    simp [matchCondE, matchCondEntriesE, matchEntryE, matchExpE, queryEntries,
      checkAllExp, isQueryOp, isCondOp, condOpsList, queryOpsList, fieldsOf,
      hasKey, lookupD, jsFalsy, isPlainObjV, deepEqualV, deepEqualFV,
      matchAllE, validateAllV, validateAllElemMatchV, matchAndE,
      matchCondsAllE, matchAllElemsE, splitDot, splitChars, arrElemsOf,
      isArrV, allScalarLeaf, List.mem_cons, List.not_mem_nil, bind,
      Except.bind, pure, Except.pure]

/-- Claim C7 (amended): for a NON-EMPTY `$all` operand list whose every
element is a map containing the key `$elemMatch`, the `$all` clause at a
path equals the rewritten conjunction `$and` of one single-path condition
per element, so each `$elemMatch` may be satisfied by a different array
member; the empty list is an exception — `$all: empty` is `false` while
`$and: empty` is `true`. -/
theorem all_elemmatch_rewrite_equiv :
    ∀ (E : RegexEngine) (doc : Value) (p : String) (os : List Value),
      os ≠ [] →
      (∀ o ∈ os, ∃ fs, o = Value.obj fs ∧ hasKey fs "$elemMatch" = true) →
      isQueryOp p = false →
      matchCondE E (.obj [(p, .obj [("$all", .arr os)])]) doc =
        matchCondE E
          (.obj [("$and", .arr (os.map fun o => .obj [(p, o)]))]) doc := by
  intro E doc p os hne hem hp
  obtain ⟨h1, h2, h3⟩ := (isQueryOp_false_iff p).mp hp
  have hvem := validateAllElemMatchV_of hem
  have hvall := validateAllV_of hem
  have hnee : os.isEmpty = false := by
    cases os with
    | nil => exact absurd rfl hne
    | cons a as => simp
  have hall : matchAllE E doc (splitDot p) (.arr os) =
      matchAllElemsE E (joinDot (splitDot p)) doc os := by
    cases hsp : splitDot p with
    | nil => simp [matchAllE, hvall, hvem, hnee, arrElemsOf]
    | cons k rest => simp [matchAllE, hvall, hvem, hnee, arrElemsOf]
  have hlhs : matchCondE E (.obj [(p, .obj [("$all", .arr os)])]) doc =
      matchAllE E doc (splitDot p) (.arr os) := by
    rw [matchCondE_single]
    cases hm : matchAllE E doc (splitDot p) (.arr os) with
    | error e =>
      simp [matchEntryE, h1, h2, h3, checkAllExp, jsFalsy, isPlainObjV,
        deepEqualV, deepEqualFV, fieldsOf, isCondOp, condOpsList, matchExpE,
        hasKey, lookupD, List.mem_cons, List.not_mem_nil, hm, bind,
        Except.bind, pure, Except.pure]
    | ok b =>
      simp [matchEntryE, h1, h2, h3, checkAllExp, jsFalsy, isPlainObjV,
        deepEqualV, deepEqualFV, fieldsOf, isCondOp, condOpsList, matchExpE,
        hasKey, lookupD, List.mem_cons, List.not_mem_nil, hm, bind,
        Except.bind, pure, Except.pure]
  have hrhs : matchCondE E
      (.obj [("$and", .arr (os.map fun o => .obj [(p, o)]))]) doc =
      matchCondsAllE E doc (os.map fun o => .obj [(p, o)]) := by
    rw [matchCondE_single]
    simp [matchEntryE, matchAndE]
  rw [hlhs, hrhs, hall, joinDot_splitDot, matchAllElemsE_eq_conds]

/-- Witness for the amended claim C7 at a concrete instance. -/
theorem all_elemmatch_rewrite_witness :
    matchCondE nullEngine
      (.obj [("a", .obj [("$all",
        .arr [.obj [("$elemMatch", .obj [("b", .num 1)])]])])])
      (.obj [("a", .arr [.obj [("b", .num 1)]])]) =
    matchCondE nullEngine
      (.obj [("$and", .arr [.obj [("a",
        .obj [("$elemMatch", .obj [("b", .num 1)])])]])])
      (.obj [("a", .arr [.obj [("b", .num 1)]])]) :=
  all_elemmatch_rewrite_equiv nullEngine
    (.obj [("a", .arr [.obj [("b", .num 1)]])]) "a"
    [.obj [("$elemMatch", .obj [("b", .num 1)])]]
    (by simp)
    (by
      intro o ho
      simp only [List.mem_singleton] at ho
      subst ho
      exact ⟨_, rfl, by decide⟩)
    (by decide)

/-- Claim C10: a path value is treated as an operator expression exactly
when it is a non-empty plain map whose every key is a known condition
operator; a plain map with even one unrecognized key is silently treated
as an implicit `$eq` operand and compared structurally against the leaf
by `matchEq` — `validate` reports success on it and no contained
operator key is evaluated. -/
theorem nonexpression_map_implicit_eq :
    (∀ v : Value, checkAllExp v = true ↔
      ∃ fs, v = Value.obj fs ∧ fs ≠ [] ∧ ∀ kv ∈ fs, kv.1 ∈ condOpsList) ∧
    (∀ (E : RegexEngine) (doc : Value) (p : String) (ov : Value),
      isQueryOp p = false → isPlainObjV ov = true → checkAllExp ov = false →
      matchCondE E (.obj [(p, ov)]) doc =
        .ok (matchEq E doc (splitDot p) ov) ∧
      validateQ (.obj [(p, ov)]) = .ok true) := by
  constructor
  · intro v
    cases v with
    | null => simp [checkAllExp, jsFalsy, isPlainObjV]
    | bool b => simp [checkAllExp, jsFalsy, isPlainObjV]
    | num n => simp [checkAllExp, jsFalsy, isPlainObjV]
    | str s => simp [checkAllExp, jsFalsy, isPlainObjV]
    | regex pt f => simp [checkAllExp, jsFalsy, isPlainObjV]
    | arr xs => simp [checkAllExp, jsFalsy, isPlainObjV]
    | obj fs =>
      cases fs with
      | nil =>
        simp [checkAllExp, jsFalsy, isPlainObjV, deepEqualV, deepEqualFV,
          fieldsOf]
      | cons kv rest =>
        obtain ⟨k1, v1⟩ := kv
        simp only [checkAllExp, jsFalsy, isPlainObjV, deepEqualV, deepEqualFV,
          fieldsOf, isCondOp, List.all_eq_true, Bool.not_true, Bool.not_false,
          Bool.true_and, Bool.and_eq_true, decide_eq_true_eq]
        constructor
        · rintro ⟨-, hall⟩
          exact ⟨(k1, v1) :: rest, rfl, by simp, fun kv hkv => hall kv hkv⟩
        · rintro ⟨fs, hfs, -, hall⟩
          cases hfs
          refine ⟨by simp, fun kv hkv => hall kv hkv⟩
  · intro E doc p ov hp hpl hexp
    obtain ⟨h1, h2, h3⟩ := (isQueryOp_false_iff p).mp hp
    obtain ⟨fs, rfl⟩ : ∃ fs, ov = Value.obj fs := by
      cases ov with
      | obj fs => exact ⟨fs, rfl⟩
      | null => simp [isPlainObjV] at hpl
      | bool b => simp [isPlainObjV] at hpl
      | num n => simp [isPlainObjV] at hpl
      | str s => simp [isPlainObjV] at hpl
      | regex pt f => simp [isPlainObjV] at hpl
      | arr xs => simp [isPlainObjV] at hpl
    constructor
    · rw [matchCondE_single, matchEntryE]
      simp [h1, h2, h3, hexp, bind, Except.bind, pure, Except.pure]
    · have hstep : validateEntryE p (.obj fs) = .ok () := by
        simp [validateEntryE, hp, hexp, bind, Except.bind, pure, Except.pure]
      simp [validateQ, validateEntriesE, hstep, bind, Except.bind, pure,
        Except.pure]

/-- Witness for claim C10 at the concrete instance of the claim: the map
`($eq: 1, $exists: true)` contains the unrecognized key `$exists`, is
treated as one implicit-equality operand, and passes validation. -/
theorem nonexpression_map_implicit_eq_witness :
    matchCondE nullEngine
      (.obj [("a", .obj [("$eq", .num 1), ("$exists", .bool true)])])
      (.obj [("a", .num 1)]) =
    .ok (matchEq nullEngine (.obj [("a", .num 1)]) (splitDot "a")
      (.obj [("$eq", .num 1), ("$exists", .bool true)])) ∧
    validateQ (.obj [("a", .obj [("$eq", .num 1), ("$exists", .bool true)])]) =
      .ok true :=
  nonexpression_map_implicit_eq.2 nullEngine (.obj [("a", .num 1)]) "a"
    (.obj [("$eq", .num 1), ("$exists", .bool true)])
    (by decide) (by decide)
    (by simp [checkAllExp, jsFalsy, isPlainObjV, deepEqualV, deepEqualFV,
      fieldsOf, isCondOp, condOpsList])

theorem isQueryOp_true_iff (k : String) :
    isQueryOp k = true ↔ k = "$and" ∨ k = "$or" ∨ k = "$nor" := by
  simp [isQueryOp, queryOpsList]

theorem isArrV_false_elems {v : Value} (h : isArrV v = false) :
    arrElemsOf v = [] := by
  cases v <;> simp_all [isArrV, arrElemsOf]

theorem validateQueryOpsV_eq_isArrV (v : Value) :
    validateQueryOpsV v = isArrV v := by
  cases v <;> rfl

theorem bindErrIf {α : Type} (c : Prop) [Decidable c] (e : JsErr)
    (rest : Unit → Except JsErr α) :
    ((if c then Except.error e else pure ()) >>= rest) =
      if c then Except.error e else rest () := by
  by_cases h : c <;> simp [h, bind, Except.bind, pure, Except.pure]

theorem validateQ_never_false (q : Value) (b : Bool)
    (h : validateQ q = .ok b) : b = true := by
  cases q with
  | obj fs =>
    rw [validateQ] at h
    cases he : validateEntriesE fs with
    | error e => rw [he] at h; simp [bind, Except.bind] at h
    | ok u =>
      rw [he] at h
      simp [bind, Except.bind, pure, Except.pure] at h
      exact h
  | regex pt f =>
    simp [validateQ, pure, Except.pure] at h
    exact h
  | null => simp [validateQ] at h
  | bool b2 => simp [validateQ] at h
  | num n => simp [validateQ] at h
  | str s => simp [validateQ] at h
  | arr xs => simp [validateQ] at h

theorem validateEntryE_queryOp_arr {k : String} (hq : isQueryOp k = true)
    (cs : List Value) : validateEntryE k (.arr cs) = validateCondsE cs := by
  rcases (isQueryOp_true_iff k).mp hq with rfl | rfl | rfl <;>
    (rw [validateEntryE];
     simp [isQueryOp, queryOpsList, validateQueryOpsV, isArrV, arrElemsOf,
       bind, Except.bind, pure, Except.pure])

theorem validateEntryE_queryOp_nonarr {k : String} {v : Value}
    (hq : isQueryOp k = true) (ha : isArrV v = false) :
    ∃ m, validateEntryE k v = .error (.typeError m) ∧ m ≠ modMsgStr := by
  have hvo : validateQueryOpsV v = false := by
    rw [validateQueryOpsV_eq_isArrV]; exact ha
  rcases (isQueryOp_true_iff k).mp hq with rfl | rfl | rfl
  · refine ⟨"$and operator value must be an array", ?_, by simp [modMsgStr]⟩
    rw [validateEntryE]
    simp [isQueryOp, queryOpsList, hvo, bind, Except.bind, pure, Except.pure]
  · refine ⟨"$or operator value must be an array", ?_, by simp [modMsgStr]⟩
    rw [validateEntryE]
    simp [isQueryOp, queryOpsList, hvo, bind, Except.bind, pure, Except.pure]
  · refine ⟨"$nor operator value must be an array", ?_, by simp [modMsgStr]⟩
    rw [validateEntryE]
    simp [isQueryOp, queryOpsList, hvo, bind, Except.bind, pure, Except.pure]

theorem validateEntryE_path_nonexp {k : String} {v : Value}
    (hq : isQueryOp k = false) (hce : checkAllExp v = false) :
    validateEntryE k v = .ok () := by
  rw [validateEntryE]
  simp [hq, hce, bind, Except.bind, pure, Except.pure]

theorem validateEntryE_exp {k : String} {v : Value}
    (hq : isQueryOp k = false) (hce : checkAllExp v = true) :
    validateEntryE k v =
      (if hasKey (fieldsOf v) "$in" &&
          !validateInNinV (lookupD (fieldsOf v) "$in") then
        .error (.typeError "$in operator value must be an array")
      else if hasKey (fieldsOf v) "$nin" &&
          !validateInNinV (lookupD (fieldsOf v) "$nin") then
        .error (.typeError "$nin operator value must be an array")
      else if hasKey (fieldsOf v) "$all" &&
          !validateAllV (lookupD (fieldsOf v) "$all") then
        .error (.typeError "$all operator value must be an array")
      else if hasKey (fieldsOf v) "$mod" &&
          !validateModV (lookupD (fieldsOf v) "$mod") then
        .error (.typeError modMsgStr)
      else if hasKey (fieldsOf v) "$size" &&
          !validateSizeV (lookupD (fieldsOf v) "$size") then
        .error (.typeError "$size operator value must be a number")
      else .ok ()) := by
  rw [validateEntryE]
  simp only [hq, Bool.false_eq_true, if_false, hce, if_true, modMsgStr]
  by_cases h1 : hasKey (fieldsOf v) "$in" &&
      !validateInNinV (lookupD (fieldsOf v) "$in") <;>
    by_cases h2 : hasKey (fieldsOf v) "$nin" &&
        !validateInNinV (lookupD (fieldsOf v) "$nin") <;>
    by_cases h3 : hasKey (fieldsOf v) "$all" &&
        !validateAllV (lookupD (fieldsOf v) "$all") <;>
    by_cases h4 : hasKey (fieldsOf v) "$mod" &&
        !validateModV (lookupD (fieldsOf v) "$mod") <;>
    by_cases h5 : hasKey (fieldsOf v) "$size" &&
        !validateSizeV (lookupD (fieldsOf v) "$size") <;>
    simp [h1, h2, h3, h4, h5, bind, Except.bind, pure, Except.pure]

theorem validate_mod_aux : ∀ N : Nat,
    (∀ q : Value, sizeV q ≤ N →
      (validateQ q = .error (.typeError modMsgStr) →
        checkedModInvalid q = true) ∧
      (checkedModInvalid q = true → ∃ e, validateQ q = .error e)) ∧
    (∀ fs : List (String × Value), sizeFV fs ≤ N →
      (validateEntriesE fs = .error (.typeError modMsgStr) →
        cmiEntries fs = true) ∧
      (cmiEntries fs = true → ∃ e, validateEntriesE fs = .error e)) ∧
    (∀ (k : String) (v : Value), sizeV v ≤ N →
      (validateEntryE k v = .error (.typeError modMsgStr) →
        entryCmi k v = true) ∧
      (entryCmi k v = true → ∃ e, validateEntryE k v = .error e)) ∧
    (∀ cs : List Value, sizeLV cs ≤ N →
      (validateCondsE cs = .error (.typeError modMsgStr) →
        cmiConds cs = true) ∧
      (cmiConds cs = true → ∃ e, validateCondsE cs = .error e)) := by
  intro N
  induction N using Nat.strong_induction_on with
  | _ N ih =>
  refine ⟨?_, ?_, ?_, ?_⟩
  · -- whole queries
    intro q hq
    cases q with
    | obj fs =>
      have hlt : sizeFV fs < N := by
        have : sizeV (Value.obj fs) = 1 + sizeFV fs := by simp [sizeV]
        omega
      have IH := ((ih (sizeFV fs) hlt).2.1) fs le_rfl
      constructor
      · intro h
        rw [validateQ] at h
        have hent : validateEntriesE fs = .error (.typeError modMsgStr) := by
          cases he : validateEntriesE fs with
          | error e =>
            rw [he] at h
            simp [bind, Except.bind] at h
            rw [h]
          | ok u =>
            rw [he] at h
            simp [bind, Except.bind, pure, Except.pure] at h
        simp [checkedModInvalid, IH.1 hent]
      · intro h
        simp only [checkedModInvalid] at h
        obtain ⟨e, he⟩ := IH.2 h
        exact ⟨e, by rw [validateQ, he]; simp [bind, Except.bind]⟩
    | regex pt f =>
      constructor
      · intro h; simp [validateQ, pure, Except.pure] at h
      · intro h; simp [checkedModInvalid] at h
    | null =>
      constructor
      · intro h; simp [validateQ, modMsgStr] at h
      · intro h; simp [checkedModInvalid] at h
    | bool b =>
      constructor
      · intro h; simp [validateQ, modMsgStr] at h
      · intro h; simp [checkedModInvalid] at h
    | num n =>
      constructor
      · intro h; simp [validateQ, modMsgStr] at h
      · intro h; simp [checkedModInvalid] at h
    | str s =>
      constructor
      · intro h; simp [validateQ, modMsgStr] at h
      · intro h; simp [checkedModInvalid] at h
    | arr xs =>
      constructor
      · intro h; simp [validateQ, modMsgStr] at h
      · intro h; simp [checkedModInvalid] at h
  · -- entry lists
    intro fs hfs
    cases fs with
    | nil =>
      constructor
      · intro h; simp [validateEntriesE, pure, Except.pure] at h
      · intro h; simp [cmiEntries] at h
    | cons kv rest =>
      obtain ⟨k, v⟩ := kv
      have hsz : sizeFV ((k, v) :: rest) = 4 + sizeV v + sizeFV rest := by
        simp [sizeFV]
      have h1 : sizeV v < N := by omega
      have h2 : sizeFV rest < N := by omega
      have IHkv := ((ih (sizeV v) h1).2.2.1) k v le_rfl
      have IHrest := ((ih (sizeFV rest) h2).2.1) rest le_rfl
      constructor
      · intro h
        rw [validateEntriesE] at h
        cases he : validateEntryE k v with
        | error e =>
          rw [he] at h
          simp [bind, Except.bind] at h
          rw [h] at he
          simp [cmiEntries, IHkv.1 he]
        | ok u =>
          rw [he] at h
          simp [bind, Except.bind] at h
          simp [cmiEntries, IHrest.1 h]
      · intro h
        simp only [cmiEntries, Bool.or_eq_true] at h
        cases h with
        | inl hl =>
          obtain ⟨e, he⟩ := IHkv.2 hl
          exact ⟨e, by rw [validateEntriesE, he]; simp [bind, Except.bind]⟩
        | inr hr =>
          obtain ⟨e, he⟩ := IHrest.2 hr
          cases he2 : validateEntryE k v with
          | error e2 =>
            exact ⟨e2, by rw [validateEntriesE, he2]; simp [bind, Except.bind]⟩
          | ok u =>
            refine ⟨e, ?_⟩
            rw [validateEntriesE, he2]
            simp [bind, Except.bind, he]
  · -- single entries
    intro k v hv
    by_cases hqk : isQueryOp k = true
    · by_cases ha : isArrV v = true
      · obtain ⟨cs, rfl⟩ : ∃ cs, v = .arr cs := by
          cases v with
          | arr xs => exact ⟨xs, rfl⟩
          | null => simp [isArrV] at ha
          | bool b => simp [isArrV] at ha
          | num n => simp [isArrV] at ha
          | str s => simp [isArrV] at ha
          | regex pt f => simp [isArrV] at ha
          | obj fs => simp [isArrV] at ha
        have hred := validateEntryE_queryOp_arr hqk cs
        have hlt : sizeLV cs < N := by
          have : sizeV (Value.arr cs) = 1 + sizeLV cs := by simp [sizeV]
          omega
        have IHcs := ((ih (sizeLV cs) hlt).2.2.2) cs le_rfl
        constructor
        · intro h
          rw [hred] at h
          simp [entryCmi, hqk, arrElemsOf, IHcs.1 h]
        · intro h
          have hcmi : cmiConds cs = true := by
            simp [entryCmi, entryModInvalid, hqk, arrElemsOf] at h
            exact h
          obtain ⟨e, he⟩ := IHcs.2 hcmi
          exact ⟨e, by rw [hred]; exact he⟩
      · have ha2 : isArrV v = false := by simpa using ha
        obtain ⟨m, hm, hmne⟩ := validateEntryE_queryOp_nonarr hqk ha2
        constructor
        · intro h
          rw [hm] at h
          simp at h
          exact absurd h hmne
        · intro h
          exact ⟨.typeError m, hm⟩
    · have hq2 : isQueryOp k = false := by simpa using hqk
      by_cases hce : checkAllExp v = true
      · have hred := validateEntryE_exp hq2 hce
        constructor
        · intro h
          rw [hred] at h
          by_cases hc1 : hasKey (fieldsOf v) "$in" &&
              !validateInNinV (lookupD (fieldsOf v) "$in")
          · rw [if_pos hc1] at h; simp [modMsgStr] at h
          · rw [if_neg hc1] at h
            by_cases hc2 : hasKey (fieldsOf v) "$nin" &&
                !validateInNinV (lookupD (fieldsOf v) "$nin")
            · rw [if_pos hc2] at h; simp [modMsgStr] at h
            · rw [if_neg hc2] at h
              by_cases hc3 : hasKey (fieldsOf v) "$all" &&
                  !validateAllV (lookupD (fieldsOf v) "$all")
              · rw [if_pos hc3] at h; simp [modMsgStr] at h
              · rw [if_neg hc3] at h
                by_cases hc4 : hasKey (fieldsOf v) "$mod" &&
                    !validateModV (lookupD (fieldsOf v) "$mod")
                · simp only [Bool.and_eq_true, Bool.not_eq_true'] at hc4
                  simp [entryCmi, entryModInvalid, hq2, hce, hc4.1, hc4.2]
                · rw [if_neg hc4] at h
                  by_cases hc5 : hasKey (fieldsOf v) "$size" &&
                      !validateSizeV (lookupD (fieldsOf v) "$size")
                  · rw [if_pos hc5] at h; simp [modMsgStr] at h
                  · rw [if_neg hc5] at h; simp at h
        · intro h
          have hc4 : hasKey (fieldsOf v) "$mod" = true ∧
              validateModV (lookupD (fieldsOf v) "$mod") = false := by
            simp [entryCmi, entryModInvalid, hq2, hce] at h
            exact h
          rw [hred]
          by_cases hc1 : hasKey (fieldsOf v) "$in" &&
              !validateInNinV (lookupD (fieldsOf v) "$in")
          · exact ⟨_, by rw [if_pos hc1]⟩
          · by_cases hc2 : hasKey (fieldsOf v) "$nin" &&
                !validateInNinV (lookupD (fieldsOf v) "$nin")
            · exact ⟨_, by rw [if_neg hc1, if_pos hc2]⟩
            · by_cases hc3 : hasKey (fieldsOf v) "$all" &&
                  !validateAllV (lookupD (fieldsOf v) "$all")
              · exact ⟨_, by rw [if_neg hc1, if_neg hc2, if_pos hc3]⟩
              · refine ⟨.typeError modMsgStr, ?_⟩
                rw [if_neg hc1, if_neg hc2, if_neg hc3, if_pos (by
                  simp [hc4.1, hc4.2])]
      · have hce2 : checkAllExp v = false := by simpa using hce
        have hok := validateEntryE_path_nonexp hq2 hce2
        constructor
        · intro h; rw [hok] at h; simp at h
        · intro h
          simp [entryCmi, entryModInvalid, hq2, hce2] at h
  · -- combinator condition lists
    intro cs hcs
    cases cs with
    | nil =>
      constructor
      · intro h; simp [validateCondsE, pure, Except.pure] at h
      · intro h; simp [cmiConds] at h
    | cons c rest =>
      have hsz : sizeLV (c :: rest) = 4 + sizeV c + sizeLV rest := by
        simp [sizeLV]
      have h1 : sizeV c < N := by omega
      have h2 : sizeLV rest < N := by omega
      have IHc := ((ih (sizeV c) h1).1) c le_rfl
      have IHrest := ((ih (sizeLV rest) h2).2.2.2) rest le_rfl
      constructor
      · intro h
        rw [validateCondsE] at h
        cases he : validateQ c with
        | error e =>
          rw [he] at h
          simp [bind, Except.bind] at h
          rw [h] at he
          simp [cmiConds, IHc.1 he]
        | ok u =>
          rw [he] at h
          simp [bind, Except.bind] at h
          simp [cmiConds, IHrest.1 h]
      · intro h
        simp only [cmiConds, Bool.or_eq_true] at h
        cases h with
        | inl hl =>
          obtain ⟨e, he⟩ := IHc.2 hl
          exact ⟨e, by rw [validateCondsE, he]; simp [bind, Except.bind]⟩
        | inr hr =>
          obtain ⟨e, he⟩ := IHrest.2 hr
          cases he2 : validateQ c with
          | error e2 =>
            exact ⟨e2, by rw [validateCondsE, he2]; simp [bind, Except.bind]⟩
          | ok u =>
            refine ⟨e, ?_⟩
            rw [validateCondsE, he2]
            simp [bind, Except.bind, he]

/-- Claim C9 (corrected): `validate` raises the `$mod` TypeError only if some
expression sitting at a checked position of the query (directly under a path
key, or inside a sub-query reached through a combinator list) carries a `$mod`
argument that is not a 2-element array of numbers; conversely such an invalid
`$mod` argument guarantees that `validate` raises SOME TypeError — though an
earlier check of the same scan (`$in`, `$nin`, `$all`, or a malformed sibling
entry) may preempt the `$mod` message — and `validate` never reports `false`. -/
theorem validate_mod_checked_positions (q : Value) :
    (validateQ q = Except.error (JsErr.typeError modMsgStr) →
      checkedModInvalid q = true) ∧
    (checkedModInvalid q = true → ∃ e, validateQ q = Except.error e) ∧
    (∀ b : Bool, validateQ q = Except.ok b → b = true) := by
  have h := (validate_mod_aux (sizeV q)).1 q le_rfl
  exact ⟨h.1, h.2, fun b hb => validateQ_never_false q b hb⟩

/-- Counterexample to the literal claim C9: in the query
`a: ($in: 1, $mod: 1)` the `$mod` argument `1` is invalid (not a 2-number
array), yet `validate` raises the `$in` TypeError, not the one naming
`$mod`, because the `$in` check of the same expression runs first. -/
theorem validate_mod_preempted_counterexample :
    validateQ (Value.obj [("a",
        Value.obj [("$in", Value.num 1), ("$mod", Value.num 1)])]) =
      Except.error (JsErr.typeError "$in operator value must be an array") ∧
    validateModV (Value.num 1) = false := by
  constructor
  · simp [validateQ, validateEntriesE, validateEntryE, isQueryOp,
      queryOpsList, checkAllExp, fieldsOf, isCondOp, condOpsList,
      hasKey, lookupD, validateInNinV, isArrV, bind, Except.bind,
      pure, Except.pure, jsFalsy, isPlainObjV, deepEqualV, deepEqualFV,
      deepEqualLV]
  · rfl

theorem validate_mod_checked_positions_witness :
    ∃ e, validateQ (Value.obj [("a", Value.obj [("$mod", Value.num 3)])]) =
      Except.error e :=
  (validate_mod_checked_positions
      (Value.obj [("a", Value.obj [("$mod", Value.num 3)])])).2.1
    (by simp [checkedModInvalid, cmiEntries, entryCmi, entryModInvalid,
      isQueryOp, queryOpsList, checkAllExp, fieldsOf, isCondOp,
      condOpsList, hasKey, lookupD, validateModV, isArrV, arrElemsOf,
      jsFalsy, isPlainObjV, deepEqualV, deepEqualFV, deepEqualLV])
